import Mathlib

/-!
Verification of the nso_vault Drive-crawl / link-extraction / dedup-and-upload
pipeline, shallowly embedded from the Python sources:

* `video_processor/services.py` (sanitize_filename, DriveHelper, the
  per-link processing loop `process_video_links_internal`, and the recursive
  walker `run_recursive_video_automation` / `crawl`),
* `video_processor/tasks.py` (`process_videos_from_ppt_links`),
* `uploader/utils.py` (`check_file_exists`, `upload_file_to_drive`,
  `extract_all_potential_links_from_last_slide`),
* `drive_uploader/views.py` (`upload_file_to_drive`),
* `catchment_extractor.py` (`extract_field_value`, `extract_data_from_ppt`).

Python string and regex behaviour is embedded explicitly: regular
expressions are specialised, pattern by pattern, to executable scanning
functions over `List Char` that follow the leftmost-match / greedy /
non-greedy semantics of the concrete patterns appearing in the source.
-/

set_option maxRecDepth 10000

/-! ## Python string primitives -/

/-- Characters treated as whitespace by Python `str.strip()` and by the regex
class `\s` (restricted to the code points that can actually appear in the
strings this development manipulates). -/
def pyIsSpace (c : Char) : Bool :=
  c = ' ' || c = '\t' || c = '\n' || c = '\r' ||
  c = '\x0b' || c = '\x0c' || c = '\x1c' || c = '\x1d' ||
  c = '\x1e' || c = '\x1f' || c = '\x85' || c = '\xa0'

/-- Python `str.strip()` on a character list: drop whitespace from both ends. -/
def pyStripList (l : List Char) : List Char :=
  ((l.dropWhile pyIsSpace).reverse.dropWhile pyIsSpace).reverse

/-- Python `str.strip()` on a string. -/
def pyStrip (s : String) : String :=
  String.mk (pyStripList s.data)

/-- Python truthiness of an `Optional[str]`: `None` and `""` are falsy. -/
def pyTruthy : Option String → Bool
  | none => false
  | some s => !(s == "")

/-! ## sanitize_filename  (video_processor/services.py:37-53)

The source replaces every character matching `[\\/:*?"<>|\n\r\t]` with an
underscore, strips the result, and substitutes `"sanitized_download"` when
the stripped result is empty. -/

/-- The character class `[\\/:*?"<>|\n\r\t]` of `sanitize_filename`. -/
def illegalChar (c : Char) : Bool :=
  c = '\\' || c = '/' || c = ':' || c = '*' || c = '?' || c = '"' ||
  c = '<' || c = '>' || c = '|' || c = '\n' || c = '\r' || c = '\t'

/-- `sanitize_filename` (video_processor/services.py:37). -/
def sanitize_filename (s : String) : String :=
  let replaced := s.data.map (fun c => if illegalChar c then '_' else c)
  let stripped := pyStripList replaced
  if stripped = [] then "sanitized_download" else String.mk stripped

/-! ## Link de-duplication

Embeds the dictionary loop shared verbatim by
`DriveHelper.extract_all_potential_links` (video_processor/services.py:260-267)
and `extract_all_potential_links_from_last_slide` (uploader/utils.py:271-277):

    for item in found_links_with_names:
        link, name = item['link'], item['name']
        if link not in unique_links_with_names or
           (name and not unique_links_with_names[link]['name']):
            unique_links_with_names[link] = {'name': name, 'link': link}

The Python dict is insertion-ordered and an overwrite keeps the key's
position, so it is modelled as an association list from URL to name. -/

/-- Overwrite the value stored under key `link` (dict assignment on an
existing key: position and key unchanged, value replaced). -/
def dedupOverwrite (m : List (String × Option String)) (link : String)
    (name : Option String) : List (String × Option String) :=
  m.map (fun p => if p.1 == link then (p.1, name) else p)

/-- One iteration of the dedup loop on accumulator `m`. -/
def dedupIns (m : List (String × Option String)) (name : Option String)
    (link : String) : List (String × Option String) :=
  match m.find? (fun p => p.1 == link) with
  | none => m ++ [(link, name)]
  | some p => if pyTruthy name && !(pyTruthy p.2) then dedupOverwrite m link name else m

/-- The dedup loop over the collected `(name, link)` items. -/
def dedupGo (m : List (String × Option String)) :
    List (Option String × String) → List (String × Option String)
  | [] => m
  | it :: rest => dedupGo (dedupIns m it.1 it.2) rest

/-- `unique_links_with_names` computed from the raw collected items, in the
order `list(dict.values())` returns them. -/
def dedupLinks (items : List (Option String × String)) : List (String × Option String) :=
  dedupGo [] items

/-- The name associated to URL `u` in a dedup accumulator (`None` when the
URL is absent; `some name` when present with that name). -/
def nameAt (m : List (String × Option String)) (u : String) : Option (Option String) :=
  (m.find? (fun p => p.1 == u)).map Prod.snd

/-- How one more occurrence of a URL, carrying name `n`, updates the stored
name: first occurrence stores `n`; later ones overwrite only a falsy stored
name with a truthy `n`. -/
def mergeStep (acc : Option (Option String)) (n : Option String) : Option (Option String) :=
  match acc with
  | none => some n
  | some cur => some (if pyTruthy n && !(pyTruthy cur) then n else cur)

/-- The names carried by the occurrences of URL `u` in the collected items,
in collection order. -/
def namesFor (u : String) (items : List (Option String × String)) : List (Option String) :=
  (items.filter (fun it => it.2 == u)).map Prod.fst

/-! ## Document model

Shallow model of the python-pptx objects the pipeline reads: runs with text
and an optional hyperlink address, paragraphs, text frames, tables (rows of
cells, each cell a text frame), shapes (optional click-action hyperlink,
optional text frame, optional table, title-placeholder flag) and slides. -/

structure PRun where
  text : String
  hlink : Option String
deriving DecidableEq, Repr

structure Para where
  runs : List PRun
deriving DecidableEq, Repr

structure TextFrame where
  paras : List Para
deriving DecidableEq, Repr

structure PTable where
  rows : List (List TextFrame)
deriving DecidableEq, Repr

structure Shape where
  actionHlink : Option String
  tf : Option TextFrame
  tbl : Option PTable
  isTitle : Bool
deriving DecidableEq, Repr

structure Slide where
  shapes : List Shape
deriving DecidableEq, Repr

structure Pptx where
  slides : List Slide
deriving DecidableEq, Repr

/-- python-pptx `paragraph.text`: concatenation of the runs' texts. -/
def paraText (p : Para) : String :=
  String.join (p.runs.map PRun.text)

/-- python-pptx `text_frame.text`: paragraph texts joined by newlines. -/
def tfFullText (tf : TextFrame) : String :=
  String.intercalate "\n" (tf.paras.map paraText)

/-! ## URL discovery

Embeds `url_pattern = re.compile(r'https?://[^\s\]\)\}>"]+')`
(video_processor/services.py:201) and its `finditer` scan: at each position
the engine matches the literal scheme (`https://`, falling back to
`http://`), then a maximal nonempty run of characters outside the class
`\s ] ) } > "`; matches are reported left to right, non-overlapping. -/

/-- Characters allowed inside the URL token: the complement of
`[\s\]\)\}>"]`. -/
def urlChar (c : Char) : Bool :=
  !(pyIsSpace c) && c ≠ ']' && c ≠ ')' && c ≠ '}' && c ≠ '>' && c ≠ '"'

/-- Case-sensitive literal prefix match returning the rest of the input. -/
def litDrop : List Char → List Char → Option (List Char)
  | [], l => some l
  | _ :: _, [] => none
  | n :: ns, c :: cs => if c = n then litDrop ns cs else none

/-- Try to match the URL pattern anchored at the current position; on
success return the matched token and the rest of the input. -/
def urlAt (l : List Char) : Option (List Char × List Char) :=
  match litDrop "https://".data l with
  | some rest =>
    let run := rest.takeWhile urlChar
    if run = [] then none else some ("https://".data ++ run, rest.dropWhile urlChar)
  | none =>
    match litDrop "http://".data l with
    | some rest =>
      let run := rest.takeWhile urlChar
      if run = [] then none else some ("http://".data ++ run, rest.dropWhile urlChar)
    | none => none

/-- The `finditer` scan: leftmost, non-overlapping URL matches. The fuel is
the input length, which bounds the number of scanning steps since every step
consumes at least one character. -/
def urlFindGo : Nat → List Char → List (List Char)
  | 0, _ => []
  | _, [] => []
  | n + 1, l =>
    match urlAt l with
    | some (tok, rest) => tok :: urlFindGo n rest
    | none =>
      match l with
      | [] => []
      | _ :: tl => urlFindGo n tl

/-- All URL-pattern matches in a string, left to right. -/
def urlFindAll (s : String) : List String :=
  (urlFindGo s.data.length s.data).map String.mk

/-! ## extract_all_potential_links  (video_processor/services.py:191-271)

Collection order follows the source: per slide, per shape, first the
click-action hyperlink, then the shape's text frame, then its table.  Within
a text frame, per paragraph: plain-text URL matches first, then the runs'
hyperlink addresses.  In a table the header row is scanned for a cell whose
lowercased, stripped text contains "name", "store" or "market"; that column
supplies the row name for every row (header included), and each cell of each
row is scanned like a text frame with that associated name. -/

/-- `get_text_from_cell`: paragraph run-concatenations joined by single
spaces, then stripped. -/
def cellText (tf : TextFrame) : String :=
  pyStrip (String.intercalate " " (tf.paras.map paraText))

/-- `find_urls_in_text_content`: per paragraph, plain-text URL matches (each
`.strip()`ed) then run hyperlinks, tagged with the associated name. -/
def urlsInTF (tf : TextFrame) (assoc : Option String) : List (Option String × String) :=
  tf.paras.flatMap (fun pa =>
    (urlFindAll (paraText pa)).map (fun u => (assoc, pyStrip u)) ++
    pa.runs.filterMap (fun r => r.hlink.map (fun a => (assoc, a))))

/-- Substring search on character lists (Python `x in s`). -/
def infixHas (needle : List Char) : List Char → Bool
  | [] => needle.isEmpty
  | c :: tl => needle.isPrefixOf (c :: tl) || infixHas needle tl

/-- Python `x in s` substring test. -/
def containsSub (hay needle : String) : Bool :=
  infixHas needle.data hay.data

/-- Python `str.lower()` (ASCII case mapping suffices here). -/
def lowerStr (s : String) : String :=
  String.mk (s.data.map Char.toLower)

/-- Index of the header cell whose lowercased stripped text contains one of
the name keywords, scanning left to right (`-1` in the source becomes
`none`). -/
def nameColIdx (keywords : List String) (header : List TextFrame) : Option Nat :=
  (header.findIdx? (fun cell =>
    keywords.any (fun k => containsSub (pyStrip (lowerStr (cellText cell))) k)))

/-- Links collected from one table shape, using the given header keyword
list. -/
def tableLinks (keywords : List String) (skipHeader : Bool) (t : PTable) :
    List (Option String × String) :=
  let idx := match t.rows with
    | [] => none
    | header :: _ => nameColIdx keywords header
  (t.rows.enum.flatMap (fun rc =>
    if skipHeader && rc.1 == 0 then []
    else
      let rowName := idx.bind (fun i => (rc.2.get? i).map cellText)
      rc.2.flatMap (fun cell => urlsInTF cell rowName)))

/-- Links collected from one shape (services.py all-slides variant):
click-action hyperlink (unnamed), then text frame, then table. -/
def collectShape (sh : Shape) : List (Option String × String) :=
  (match sh.actionHlink with
   | some a => [(none, a)]
   | none => []) ++
  (match sh.tf with
   | some tf => urlsInTF tf none
   | none => []) ++
  (match sh.tbl with
   | some t => tableLinks ["name", "store", "market"] false t
   | none => [])

/-- `DriveHelper.extract_all_potential_links`: all slides, then the dedup
loop.  Returns `(link, name)` pairs in dict-value order. -/
def extract_all_potential_links (p : Pptx) : List (String × Option String) :=
  if p.slides = [] then []
  else dedupLinks (p.slides.flatMap (fun sl => sl.shapes.flatMap collectShape))

/-! ## Zone / market extraction  (video_processor/services.py:273-340)

`get_market_name_prefix` builds the first slide's text (paragraph text plus
a newline per paragraph, over shapes that have a text frame), then runs

    re.search(r"ZONE\s*:\s*(.*?)(?:\s*STATE|\s*CITY|\s*PIN CODE|$)",
              slide_text, re.IGNORECASE | re.DOTALL)

With `DOTALL` the non-greedy capture may cross newlines; `$` (no MULTILINE)
matches only at the end of the text or just before a final newline, so the
capture ends at the earliest position where `\s*STATE`, `\s*CITY`,
`\s*PIN CODE` (case-insensitive; the leading `\s*` is maximal since the
literals start with non-space characters) or end-of-text matches.  The
cleaned zone is then searched as

    re.search(r"^" + re.escape(zone) + r"\s*\d_.*?_.*$",
              slide_text, re.IGNORECASE | re.MULTILINE)

i.e. at a line start: the zone literally (case-insensitively), maximal
whitespace, one digit, an underscore, and at least one more underscore
before the end of the line; group 0 runs to the end of that line. -/

/-- Case-insensitive literal prefix match returning the rest of the input. -/
def ciDrop : List Char → List Char → Option (List Char)
  | [], l => some l
  | _ :: _, [] => none
  | n :: ns, c :: cs => if c.toLower = n.toLower then ciDrop ns cs else none

/-- Does the zone capture's terminator `(?:\s*STATE|\s*CITY|\s*PIN CODE|$)`
match at this suffix? -/
def zoneTermAt (l : List Char) : Bool :=
  let r := l.dropWhile pyIsSpace
  (ciDrop "state".data r).isSome || (ciDrop "city".data r).isSome ||
  (ciDrop "pin code".data r).isSome || l = [] || l = ['\n']

/-- The non-greedy capture: consume up to the earliest terminator match. -/
def zoneCapGo : List Char → List Char
  | [] => []
  | c :: tl => if zoneTermAt (c :: tl) then [] else c :: zoneCapGo tl

/-- Match `ZONE\s*:\s*` at the current position, returning the capture
start. -/
def zoneHead (l : List Char) : Option (List Char) :=
  (ciDrop "zone".data l).bind (fun r =>
    match r.dropWhile pyIsSpace with
    | ':' :: r2 => some (r2.dropWhile pyIsSpace)
    | _ => none)

/-- Leftmost search for the zone pattern; returns `group(1)`. -/
def zoneScan : List Char → Option (List Char)
  | [] => none
  | c :: tl =>
    match zoneHead (c :: tl) with
    | some rest => some (zoneCapGo rest)
    | none => zoneScan tl

/-- `zone_match.group(1)` of the first-slide text (raw, unstripped). -/
def zoneValue (s : String) : Option String :=
  (zoneScan s.data).map String.mk

/-- Match `\s*\[Image \d+\]\s*` at the current position (the pattern of
`re.sub(r'\s*\[Image \d+\]\s*', '', ...)`, case-sensitive); on success
return the rest after the match. -/
def imageTokenAt (l : List Char) : Option (List Char) :=
  (litDrop "[Image ".data (l.dropWhile pyIsSpace)).bind (fun r2 =>
    if r2.takeWhile Char.isDigit = [] then none
    else
      match r2.dropWhile Char.isDigit with
      | ']' :: r3 => some (r3.dropWhile pyIsSpace)
      | _ => none)

/-- The `re.sub` scan removing `[Image N]` placeholder tokens together with
surrounding whitespace.  Fuel is the input length: every step consumes at
least one character. -/
def imageSubGo : Nat → List Char → List Char
  | 0, l => l
  | _ + 1, [] => []
  | n + 1, c :: tl =>
    match imageTokenAt (c :: tl) with
    | some rest => imageSubGo n rest
    | none => c :: imageSubGo n tl

/-- `re.sub(r'\s*\[Image \d+\]\s*', '', s)`. -/
def removeImageTokens (s : String) : String :=
  String.mk (imageSubGo s.data.length s.data)

/-- Try the market pattern at the current position (which the caller
guarantees is a line start); on success return `group(0)`. -/
def marketAt (zone : List Char) (l : List Char) : Option (List Char) :=
  (ciDrop zone l).bind (fun r1 =>
    match r1.dropWhile pyIsSpace with
    | d :: r3 =>
      if d.isDigit then
        match r3 with
        | '_' :: r4 =>
          if (r4.takeWhile (fun c => c ≠ '\n')).contains '_' then
            some (l.take (l.length - (r4.dropWhile (fun c => c ≠ '\n')).length))
          else none
        | _ => none
      else none
    | [] => none)

/-- Scan for the market pattern at every line start (`^` under MULTILINE),
left to right.  The boolean tracks whether the current position starts a
line. -/
def marketScan (zone : List Char) : Bool → List Char → Option (List Char)
  | _, [] => none
  | true, c :: tl =>
    match marketAt zone (c :: tl) with
    | some m => some m
    | none => marketScan zone (c = '\n') tl
  | false, c :: tl => marketScan zone (c = '\n') tl

/-- `market_match.group(0)` (raw) for the given text and cleaned zone. -/
def marketValue (s zone : String) : Option String :=
  (marketScan zone.data true s.data).map String.mk

/-- The cleaned zone name: `group(1).strip()`, `[Image N]` tokens removed,
stripped again; `none` when the zone regex found no match at all. -/
def zoneNameOf (text : String) : Option String :=
  (zoneValue text).map (fun z => pyStrip (removeImageTokens (pyStrip z)))

/-- Python `s.rsplit('_', 1)[1]` for a string containing an underscore:
everything after the last underscore. -/
def rsplitLastUnderscore (s : String) : String :=
  String.mk ((s.data.reverse.takeWhile (fun c => c ≠ '_')).reverse)

/-- The tail step of `get_market_name_prefix`: keep the part after the last
underscore of the full market name (stripped), or the whole name when it
has no underscore. -/
def marketToPfx (full : String) : String :=
  if full.data.contains '_' then pyStrip (rsplitLastUnderscore full) else full

/-- `get_market_name_prefix` applied to already-built first-slide text:
empty string when the zone is missing/empty or the market pattern fails. -/
def marketNamePfxFromText (text : String) : String :=
  match zoneNameOf text with
  | none => ""
  | some zn =>
    if zn = "" then ""
    else
      match marketValue text zn with
      | none => ""
      | some m0 => marketToPfx (pyStrip (removeImageTokens (pyStrip m0)))

/-- The first-slide text as `get_market_name_prefix` builds it: for every
shape with a text frame, each paragraph's text followed by a newline. -/
def firstSlideText (sl : Slide) : String :=
  String.join ((sl.shapes.filterMap Shape.tf).flatMap
    (fun tf => tf.paras.map (fun pa => paraText pa ++ "\n")))

/-- `DriveHelper.get_market_name_prefix` (video_processor/services.py:273):
empty string when the document has no slides. -/
def marketNamePfx (p : Pptx) : String :=
  match p.slides with
  | [] => ""
  | sl :: _ => marketNamePfxFromText (firstSlideText sl)

/-- The nine path-illegal characters of `re.sub(r'[\\/:*?\"<>|]', '', ...)`
(no control characters, unlike `sanitize_filename`). -/
def illegalNine (c : Char) : Bool :=
  c = '\\' || c = '/' || c = ':' || c = '*' || c = '?' || c = '"' ||
  c = '<' || c = '>' || c = '|'

/-- `re.sub(r'[\\/:*?\"<>|]', '', s)`. -/
def removeIllegalNine (s : String) : String :=
  String.mk (s.data.filter (fun c => !(illegalNine c)))

/-- `prefix_for_filename` (video_processor/services.py:395-396): the cleaned
market fragment plus a trailing space, or empty when the raw fragment is
falsy. -/
def pfxForFilename (raw : String) : String :=
  if raw == "" then "" else pyStrip (removeIllegalNine raw) ++ " "

/-! ## Link classification  (video_processor/services.py:405-406, tasks.py:49-50)

    google_drive_file_id_pattern =
        re.compile(r'drive\.google\.com/(?:file/d/|uc\?id=)([a-zA-Z0-9_-]+)')
    youtube_pattern =
        re.compile(r'(?:youtube\.com/watch\?v=|youtu\.be/)([\w-]+)')

Both are `search`ed: the alternatives are tried in order at each position,
the capture is a maximal nonempty run of the id-character class. -/

/-- `[a-zA-Z0-9_-]` (also adequate for `[\w-]` on the ASCII inputs of this
code base). -/
def idChar (c : Char) : Bool :=
  c.isAlpha || c.isDigit || c = '_' || c = '-'

/-- Try, in order, each literal alternative at the current position; on a
literal match require a nonempty id-run and capture it. -/
def altCaptureAt (alts : List (List Char)) (l : List Char) : Option (List Char) :=
  alts.firstM (fun alt =>
    (litDrop alt l).bind (fun rest =>
      let run := rest.takeWhile idChar
      if run = [] then none else some run))

/-- Leftmost `re.search` of an alternation-of-literals followed by a
captured id-run. -/
def altCaptureScan (alts : List (List Char)) : List Char → Option (List Char)
  | [] => none
  | c :: tl =>
    match altCaptureAt alts (c :: tl) with
    | some cap => some cap
    | none => altCaptureScan alts tl

/-- `google_drive_file_id_pattern.search(link)`: the captured file id. -/
def driveMatch (link : String) : Option String :=
  (altCaptureScan ["drive.google.com/file/d/".data, "drive.google.com/uc?id=".data]
    link.data).map String.mk

/-- `youtube_pattern.search(link)`: the captured video id. -/
def ytMatch (link : String) : Option String :=
  (altCaptureScan ["youtube.com/watch?v=".data, "youtu.be/".data]
    link.data).map String.mk

/-! ## os.path.splitext -/

/-- `os.path.splitext` on a bare file name: split at the last dot, ignoring
any dots that lead the name. -/
def splitextIdx (name : List Char) : Option Nat :=
  let lead := (name.takeWhile (fun c => c = '.')).length
  let rest := name.drop lead
  match (rest.reverse.takeWhile (fun c => c ≠ '.')).length, rest.length with
  | _, 0 => none
  | k, n => if k = n then none else some (lead + (n - k - 1))

/-- `os.path.splitext(name)[0]`. -/
def splitextBase (name : String) : String :=
  match splitextIdx name.data with
  | none => name
  | some i => String.mk (name.data.take i)

/-- `os.path.splitext(name)[1]`. -/
def splitextExt (name : String) : String :=
  match splitextIdx name.data with
  | none => ""
  | some i => String.mk (name.data.drop i)

/-- Python `a or b` for an optional string against a default. -/
def pyOrElse (a : Option String) (b : String) : String :=
  match a with
  | none => b
  | some s => if s == "" then b else s

/-! ## The per-link processing loop

`process_video_links_internal` (video_processor/services.py:405-496) and the
Celery task `process_videos_from_ppt_links` (video_processor/tasks.py:49-114)
run the same per-link loop; the services variant prepends the market prefix
to the remote file name and sanitizes the local file name, the tasks variant
does neither and deletes the local file after a successful upload.

The Drive service and the outcomes of the I/O calls are an explicit
environment; the loop body is embedded as the ordered list of I/O actions it
performs. -/

/-- Environment: listing outcomes (for `check_file_exists`), metadata
fetches (`files().get`), download outcomes, local file sizes after a
download (`none` when the file does not exist), and upload outcomes.
`Except.error` models a raised `HttpError`. -/
structure PEnv where
  listFiles : String → String → Except Unit (List String)
  getMeta : String → Except Unit String
  driveOk : String → Bool
  ytOk : String → Bool
  sizeOf : String → Option Nat
  uploadOk : String → Bool

/-- `check_file_exists` (video_processor/services.py:342-351 and the
identical copy uploader/utils.py:208-216): list files with the given name in
the folder and report whether any exist; a raised `HttpError` yields
`False`. -/
def check_file_exists (env : PEnv) (name folderId : String) : Bool :=
  match env.listFiles name folderId with
  | .ok items => decide (0 < items.length)
  | .error _ => false

/-- The I/O actions of the per-link loop, in program order. -/
inductive Act where
  | getMetaCall (fid : String)
  | existsCheck (name : String)
  | downloadDrive (fid : String) (path : String)
  | downloadYt (link : String) (path : String)
  | removeLocal (path : String)
  | upload (name : String) (path : String) (folderId : String)
  | skipUnsupported (link : String)
deriving DecidableEq, Repr

/-- The remote file name computed in the Drive branch
(services.py:429-432): illegal characters removed from the suggested or
original base name, stripped, prefixed, with the original extension. -/
def finalNameDrive (pfx : String) (sugg : Option String) (orig : String) : String :=
  pfx ++ pyStrip (removeIllegalNine (pyOrElse sugg (splitextBase orig))) ++ splitextExt orig

/-- The remote file name computed in the YouTube branch
(services.py:454-455). -/
def finalNameYt (pfx : String) (sugg : Option String) : String :=
  pfx ++ pyStrip (removeIllegalNine (pyOrElse sugg "youtube_video")) ++ ".mp4"

/-- `os.path.join(temp_download_dir, name)`. -/
def joinPath (dir name : String) : String :=
  dir ++ "/" ++ name

/-- services.py:473-496: the post-download tail of one iteration.  When the
download succeeded and the local file exists, a file smaller than 1024 bytes
is removed and the iteration ends; otherwise the file is uploaded. -/
def afterDownload (env : PEnv) (ok : Bool) (fname lpath folderId : String) : List Act :=
  if ok then
    match env.sizeOf lpath with
    | some s => if s < 1024 then [Act.removeLocal lpath] else [Act.upload fname lpath folderId]
    | none => []
  else []

/-- services.py:421-449: the Google-Drive branch of one iteration. -/
def driveBranch (env : PEnv) (folderId tempDir pfx : String) (sugg : Option String)
    (vid : String) : List Act :=
  Act.getMetaCall vid ::
  match env.getMeta vid with
  | .error _ => []
  | .ok orig =>
    let fname := finalNameDrive pfx sugg orig
    Act.existsCheck fname ::
    if check_file_exists env fname folderId then []
    else
      let lpath := joinPath tempDir (sanitize_filename fname)
      Act.downloadDrive vid lpath :: afterDownload env (env.driveOk vid) fname lpath folderId

/-- services.py:451-467: the YouTube branch of one iteration. -/
def ytBranch (env : PEnv) (folderId tempDir pfx : String) (sugg : Option String)
    (link : String) : List Act :=
  let fname := finalNameYt pfx sugg
  Act.existsCheck fname ::
  if check_file_exists env fname folderId then []
  else
    let lpath := joinPath tempDir (sanitize_filename fname)
    Act.downloadYt link lpath :: afterDownload env (env.ytOk link) fname lpath folderId

/-- One iteration of the services-variant loop (the `processed_links` check
lives in `processAll`). -/
def processItem (env : PEnv) (folderId tempDir pfx : String)
    (item : Option String × String) : List Act :=
  match driveMatch item.2 with
  | some vid => driveBranch env folderId tempDir pfx item.1 vid
  | none =>
    match ytMatch item.2 with
    | some _ => ytBranch env folderId tempDir pfx item.1 item.2
    | none => [Act.skipUnsupported item.2]

/-- The services-variant loop over the extracted links, with the
`processed_links` set. -/
def processAll (env : PEnv) (folderId tempDir pfx : String) :
    List String → List (Option String × String) → List Act
  | _, [] => []
  | seen, item :: rest =>
    if item.2 ∈ seen then processAll env folderId tempDir pfx seen rest
    else
      processItem env folderId tempDir pfx item ++
      processAll env folderId tempDir pfx (item.2 :: seen) rest

/-! ### The tasks.py variant -/

/-- tasks.py:99-114: post-download tail; after a successful upload the local
file is removed (tasks.py:109). -/
def afterDownloadT (env : PEnv) (ok : Bool) (fname lpath folderId : String) : List Act :=
  if ok then
    match env.sizeOf lpath with
    | some s =>
      if s < 1024 then [Act.removeLocal lpath]
      else
        Act.upload fname lpath folderId ::
        (if env.uploadOk fname then [Act.removeLocal lpath] else [])
    | none => []
  else []

/-- tasks.py:66-84: Drive branch (no prefix, unsanitized local name). -/
def driveBranchT (env : PEnv) (folderId tempDir : String) (sugg : Option String)
    (vid : String) : List Act :=
  Act.getMetaCall vid ::
  match env.getMeta vid with
  | .error _ => []
  | .ok orig =>
    let fname := finalNameDrive "" sugg orig
    Act.existsCheck fname ::
    if check_file_exists env fname folderId then []
    else
      let lpath := joinPath tempDir fname
      Act.downloadDrive vid lpath :: afterDownloadT env (env.driveOk vid) fname lpath folderId

/-- tasks.py:85-94: YouTube branch. -/
def ytBranchT (env : PEnv) (folderId tempDir : String) (sugg : Option String)
    (link : String) : List Act :=
  let fname := finalNameYt "" sugg
  Act.existsCheck fname ::
  if check_file_exists env fname folderId then []
  else
    let lpath := joinPath tempDir fname
    Act.downloadYt link lpath :: afterDownloadT env (env.ytOk link) fname lpath folderId

/-- One iteration of the tasks-variant loop. -/
def processItemT (env : PEnv) (folderId tempDir : String)
    (item : Option String × String) : List Act :=
  match driveMatch item.2 with
  | some vid => driveBranchT env folderId tempDir item.1 vid
  | none =>
    match ytMatch item.2 with
    | some _ => ytBranchT env folderId tempDir item.1 item.2
    | none => [Act.skipUnsupported item.2]

/-- The tasks-variant loop with its `processed_links` set. -/
def processAllT (env : PEnv) (folderId tempDir : String) :
    List String → List (Option String × String) → List Act
  | _, [] => []
  | seen, item :: rest =>
    if item.2 ∈ seen then processAllT env folderId tempDir seen rest
    else
      processItemT env folderId tempDir item ++
      processAllT env folderId tempDir (item.2 :: seen) rest

/-! ## The recursive walker  (video_processor/services.py:518-571)

`crawl(current_folder_id, ...)` issues one `files().list` call for PPTX
files in the folder and one for sub-folders.  Neither call passes or follows
a `pageToken`, so only the first page of each listing is observed.  A remote
folder is modelled with its full contents (the PPTX trigger files and the
sub-folders as they exist remotely) together with the size of the first page
each listing call returns; the walker sees the `take`-prefix.

If the folder's first PPTX page is nonempty, `process_video_links_internal`
is invoked for the folder; then the first page of sub-folders is crawled
depth-first.  The whole body is wrapped in `try/except Exception`, so an
exception raised by the processing call skips the sub-folder enumeration of
that folder but returns normally to the caller. -/

mutual
inductive FolderTree : Type where
  | mk : String → List String → Nat → FolderForest → Nat → FolderTree
inductive FolderForest : Type where
  | nil : FolderForest
  | cons : FolderTree → FolderForest → FolderForest
end

/-- The folder's id. -/
def FolderTree.fid : FolderTree → String
  | .mk i _ _ _ _ => i

/-- All PPTX trigger files directly in the folder (every page). -/
def FolderTree.pptx : FolderTree → List String
  | .mk _ pf _ _ _ => pf

/-- How many PPTX results the first listing page returns. -/
def FolderTree.pptxFirst : FolderTree → Nat
  | .mk _ _ n _ _ => n

/-- All direct sub-folders (every page). -/
def FolderTree.subs : FolderTree → FolderForest
  | .mk _ _ _ f _ => f

/-- How many sub-folders the first listing page returns. -/
def FolderTree.subFirst : FolderTree → Nat
  | .mk _ _ _ _ n => n

/-- The forest's trees as a list. -/
def FolderForest.toList : FolderForest → List FolderTree
  | .nil => []
  | .cons t ts => t :: ts.toList

/-- Does the folder directly contain a trigger file (ground truth over all
pages)? -/
def hasTrigger (t : FolderTree) : Bool :=
  !t.pptx.isEmpty

/-- Does the walker's single-page PPTX query report a trigger file? -/
def trigFP (t : FolderTree) : Bool :=
  !(t.pptx.take t.pptxFirst).isEmpty

mutual
/-- The folders `crawl` invokes `process_video_links_internal` on, in visit
order, assuming no processing call raises. -/
def crawlVisits : FolderTree → List String
  | .mk i pf pfn subs sfn =>
    (if (pf.take pfn).isEmpty then [] else [i]) ++ crawlVisitsF sfn subs
/-- Visit the first `n` trees of the sub-folder forest (the first listing
page). -/
def crawlVisitsF : Nat → FolderForest → List String
  | _, .nil => []
  | 0, .cons _ _ => []
  | n + 1, .cons t ts => crawlVisits t ++ crawlVisitsF n ts
end

mutual
/-- Every folder of the remote tree (all pages), root first, depth-first. -/
def allFolders : FolderTree → List FolderTree
  | .mk i pf pfn subs sfn => .mk i pf pfn subs sfn :: allFoldersF subs
def allFoldersF : FolderForest → List FolderTree
  | .nil => []
  | .cons t ts => allFolders t ++ allFoldersF ts
end

/-- `K`: the number of folders of the tree directly containing a trigger
file. -/
def triggerCount (t : FolderTree) : Nat :=
  ((allFolders t).filter hasTrigger).length

mutual
/-- Every listing of the tree fits in its first page. -/
def singlePage : FolderTree → Bool
  | .mk _ pf pfn subs sfn =>
    decide (pf.length ≤ pfn) && decide (subs.toList.length ≤ sfn) && singlePageF subs
def singlePageF : FolderForest → Bool
  | .nil => true
  | .cons t ts => singlePage t && singlePageF ts
end

mutual
/-- The folders on which the pipeline is invoked when processing the folders
in `fails` raises an exception: the `except` clause catches the exception,
so the failing folder's sub-folders are skipped but the caller's loop
continues. -/
def crawlCatchVisits (fails : String → Bool) : FolderTree → List String
  | .mk i pf pfn subs sfn =>
    if !(pf.take pfn).isEmpty && fails i then [i]
    else (if (pf.take pfn).isEmpty then [] else [i]) ++ crawlCatchVisitsF fails sfn subs
def crawlCatchVisitsF (fails : String → Bool) : Nat → FolderForest → List String
  | _, .nil => []
  | 0, .cons _ _ => []
  | n + 1, .cons t ts => crawlCatchVisits fails t ++ crawlCatchVisitsF fails n ts
end

/-- The body of `crawl` for one folder, before its `except` clause: the
visits performed, and whether an exception escapes the body (it does exactly
when the processing call for this folder raises; exceptions of recursive
`crawl` calls were already caught by the callee's own handler). -/
def crawlBody (fails : String → Bool) (t : FolderTree) : List String × Bool :=
  match t with
  | .mk i pf pfn subs sfn =>
    if !(pf.take pfn).isEmpty && fails i then ([i], true)
    else ((if (pf.take pfn).isEmpty then [] else [i]) ++ crawlCatchVisitsF fails sfn subs,
          false)

/-- One `crawl` call: the body wrapped in `try/except Exception`, which
catches everything the body raises. -/
def crawlCatch (fails : String → Bool) (t : FolderTree) : List String × Bool :=
  ((crawlBody fails t).1, false)

/-- The first listing page of a folder's sub-folders. -/
def firstSubs (t : FolderTree) : List FolderTree :=
  t.subs.toList.take t.subFirst

/-- `OkPath fails t g`: folder `g` lies in the part of the tree below `t`
that the walker reaches, and no strict ancestor of `g` on that path both has
a (first-page) trigger file and fails — i.e. no ancestor's processing
exception cuts the path off. -/
inductive OkPath (fails : String → Bool) : FolderTree → FolderTree → Prop where
  | refl (t : FolderTree) : OkPath fails t t
  | step (t c g : FolderTree) :
      ¬(trigFP t = true ∧ fails t.fid = true) →
      c ∈ firstSubs t → OkPath fails c g → OkPath fails t g

/-! ## The uploader / dedup guard

Two divergent copies exist.  `drive_uploader/views.py:460-516` first lists
non-trashed, non-folder items of the same name in the destination folder and
updates the first hit in place (preserving its id), creating a new file only
when the query comes back empty.  `uploader/utils.py:154-170` performs no
query at all: it always creates a new file.  Remote state is a list of files
with a fresh-id counter; `content` stands for the uploaded bytes. -/

structure DFile where
  fidn : Nat
  name : String
  parent : String
  trashed : Bool
  isFolder : Bool
  content : Nat
deriving DecidableEq, Repr

structure DState where
  files : List DFile
  nextId : Nat
deriving DecidableEq, Repr

/-- The query `name = '<nm>' and mimeType != folder and '<parent>' in
parents and trashed = false`. -/
def uploadQuery (st : DState) (nm parent : String) : List DFile :=
  st.files.filter (fun f => f.name == nm && !f.isFolder && f.parent == parent && !f.trashed)

/-- `upload_file_to_drive` (drive_uploader/views.py:460): update the first
same-named item in place, else create. -/
def uploadViews (st : DState) (nm parent : String) (content : Nat) : DState × Nat :=
  match (uploadQuery st nm parent).head? with
  | some f =>
    ({ st with files := st.files.map (fun g => if g.fidn = f.fidn then { g with content := content } else g) },
     f.fidn)
  | none =>
    ({ files := st.files ++ [⟨st.nextId, nm, parent, false, false, content⟩],
       nextId := st.nextId + 1 },
     st.nextId)

/-- `upload_file_to_drive` (uploader/utils.py:154): unconditional create. -/
def uploadUtils (st : DState) (nm parent : String) (content : Nat) : DState × Nat :=
  ({ files := st.files ++ [⟨st.nextId, nm, parent, false, false, content⟩],
     nextId := st.nextId + 1 },
   st.nextId)

/-! ## The catchment field extractor  (catchment_extractor.py:24-174)

`extract_field_value` builds, per key,

    key_clean = re.escape(key.strip().rstrip(':')).replace(r'\ ', r'\s*')
    pattern = rf"{key_clean}(?:\s*:?\s*)(.*?)(?:\n|\||$)"

and searches it with `IGNORECASE | DOTALL`.  Escaping then replacing every
escaped space by `\s*` turns the key into its non-space chunks joined by
"any (possibly empty) whitespace"; after the last chunk the engine skips
maximal whitespace, an optional colon, and maximal whitespace again, and the
non-greedy capture stops at the first newline or pipe (or the end of the
text).  A captured value that is empty after stripping counts as not
found. -/

/-- The fixed key list `KEYS_TO_FIND`. -/
def KEYS_TO_FIND : List String :=
  ["Catchment Name :", "Store Size", "Rent per Sq.ft",
   "Total Rent + Maintenance", "PROTO (in lakhs)",
   "GeoIQ Revenue Projection 2025 (in lakhs)"]

/-- Python `str.rstrip(':')`. -/
def rstripColon (l : List Char) : List Char :=
  (l.reverse.dropWhile (fun c => c = ':')).reverse

/-- Split a character list into maximal space-free words, dropping empties
(the nonempty segments of Python `split(' ')`). -/
def splitWordsGo (acc : List Char) : List Char → List (List Char)
  | [] => if acc = [] then [] else [acc.reverse]
  | c :: tl =>
    if c = ' ' then
      if acc = [] then splitWordsGo [] tl else acc.reverse :: splitWordsGo [] tl
    else splitWordsGo (c :: acc) tl

/-- The non-space chunks of the cleaned key (escaped spaces become `\s*`). -/
def keyChunks (key : String) : List (List Char) :=
  splitWordsGo [] (rstripColon (pyStripList key.data))

/-- Match the chunk sequence at the current position: each chunk literally
(case-insensitively), maximal whitespace between chunks. -/
def chunksGo : List (List Char) → List Char → Option (List Char)
  | [], l => some l
  | c :: cs, l =>
    match ciDrop c l with
    | none => none
    | some r =>
      match cs with
      | [] => some r
      | _ :: _ => chunksGo cs (r.dropWhile pyIsSpace)

/-- `(?:\s*:?\s*)` after the key: maximal whitespace, an optional colon,
maximal whitespace. -/
def afterKeySkip (l : List Char) : List Char :=
  match l.dropWhile pyIsSpace with
  | ':' :: r => r.dropWhile pyIsSpace
  | r => r

/-- The non-greedy capture `(.*?)(?:\n|\||$)`: everything up to the first
newline or pipe. -/
def captureTo (l : List Char) : List Char :=
  l.takeWhile (fun c => c ≠ '\n' && c ≠ '|')

/-- Leftmost search for the key pattern; on success return the raw capture. -/
def efvScan (chunks : List (List Char)) : List Char → Option (List Char)
  | [] =>
    match chunksGo chunks [] with
    | some r => some (captureTo (afterKeySkip r))
    | none => none
  | c :: tl =>
    match chunksGo chunks (c :: tl) with
    | some r => some (captureTo (afterKeySkip r))
    | none => efvScan chunks tl

/-- `extract_field_value` (catchment_extractor.py:62-90): `None` when the
pattern does not match or the stripped capture is empty. -/
def extract_field_value (text key : String) : Option String :=
  match efvScan (keyChunks key) text.data with
  | some cap => if pyStripList cap = [] then none else some (String.mk (pyStripList cap))
  | none => none

/-- Why `extract_data_from_ppt` returned early (the `results['error']`
entry). -/
inductive ExtractErr where
  | slideNotFound
deriving DecidableEq, Repr

/-- The result dictionary: the per-key fields (always the full key list, in
order) plus the optional error entry. -/
structure ExtractResult where
  fields : List (String × String)
  err : Option ExtractErr
deriving DecidableEq, Repr

/-- Value stored under a key (keys are always present, so the default is
irrelevant; it mirrors `results.get(key)` returning a falsy value). -/
def lookupRes (res : List (String × String)) (k : String) : String :=
  ((res.find? (fun p => p.1 == k)).map Prod.snd).getD ""

/-- Dict assignment `results[key] = v` for an existing key. -/
def updKey (res : List (String × String)) (k v : String) : List (String × String) :=
  res.map (fun p => if p.1 == k then (p.1, v) else p)

/-- One key of the inner key loop (catchment_extractor.py:142-147 and
162-167): try a key only while its slot is falsy or the sentinel, and store
a non-`None` extraction. -/
def scanKeyStep (text : String) (r : List (String × String)) (k : String) :
    List (String × String) :=
  if lookupRes r k == "" || lookupRes r k == "N/A" then
    match extract_field_value text k with
    | some v => updKey r k v
    | none => r
  else r

/-- The inner key loop over the whole key list. -/
def scanText (text : String) (res : List (String × String)) : List (String × String) :=
  KEYS_TO_FIND.foldl (scanKeyStep text) res

/-- The text block a shape contributes (catchment_extractor.py:137-160): a
text frame's full text stripped, `elif` a table's cells' stripped texts each
followed by a newline. -/
def scannedText (sh : Shape) : Option String :=
  match sh.tf with
  | some tf => some (pyStrip (tfFullText tf))
  | none =>
    match sh.tbl with
    | some t =>
      some (String.join (t.rows.flatMap (fun row =>
        row.map (fun cell => pyStrip (tfFullText cell) ++ "\n"))))
    | none => none

/-- Process one shape against the accumulated results. -/
def scanShape (sh : Shape) (res : List (String × String)) : List (String × String) :=
  match scannedText sh with
  | some t => scanText t res
  | none => res

/-- The title string computed for a slide (catchment_extractor.py:110-123):
the title placeholder's text stripped, else the first line of the first
shape's stripped text. -/
def slideTitleStr (sl : Slide) : String :=
  match ((sl.shapes.find? (fun sh => sh.isTitle)).bind Shape.tf) with
  | some tf => pyStrip (tfFullText tf)
  | none =>
    match sl.shapes.head? with
    | some sh0 =>
      match sh0.tf with
      | some tf => String.mk ((pyStrip (tfFullText tf)).data.takeWhile (fun c => c ≠ '\n'))
      | none => ""
    | none => ""

/-- Does the slide match `SLIDE_TITLE = "Commercial Terms"`
(case-insensitive containment, nonempty title)? -/
def slideMatches (sl : Slide) : Bool :=
  !(slideTitleStr sl == "") && containsSub (lowerStr (slideTitleStr sl)) "commercial terms"

/-- The first slide whose title matches. -/
def findTargetSlide (slides : List Slide) : Option Slide :=
  slides.find? slideMatches

/-- The initial results dictionary `{key: "" for key in KEYS_TO_FIND}`. -/
def initRes : List (String × String) :=
  KEYS_TO_FIND.map (fun k => (k, ""))

/-- The final fill (catchment_extractor.py:170-172): any still-falsy slot
becomes the sentinel. -/
def fillNA (res : List (String × String)) : List (String × String) :=
  res.map (fun p => if p.2 == "" then (p.1, "N/A") else p)

/-- `extract_data_from_ppt` (catchment_extractor.py:93-174).  On the happy
path every slot is scanned then filled; when no slide titled "Commercial
Terms" exists the function returns early with all slots still `""` and an
error entry.  (The cannot-open-PPTX early return has the same shape and is
unreachable in this model, where every document value is well-formed.) -/
def extract_data_from_ppt (p : Pptx) : ExtractResult :=
  match findTargetSlide p.slides with
  | none => { fields := initRes, err := some .slideNotFound }
  | some sl =>
    { fields := fillNA (sl.shapes.foldl (fun r sh => scanShape sh r) initRes),
      err := none }

/-! ## Concrete instances used by the individual claims -/

/-- A one-paragraph, one-run table cell. -/
def cellOf (t : String) : TextFrame := ⟨[⟨[⟨t, none⟩]⟩]⟩

/-- §8 scenario, first slide: text `"ZONE : North\nNorth 1_Delhi_Market\n"`
(two paragraphs, each contributing its text plus a newline). -/
def c2Slide1 : Slide :=
  ⟨[{ actionHlink := none,
      tf := some ⟨[⟨[⟨"ZONE : North", none⟩]⟩, ⟨[⟨"North 1_Delhi_Market", none⟩]⟩]⟩,
      tbl := none, isTitle := false }]⟩

/-- §8 scenario, last slide: a table with header `["Name","Link"]` and one
data row `["Store A", "https://youtu.be/abc123"]`. -/
def c2Slide2 : Slide :=
  ⟨[{ actionHlink := none, tf := none,
      tbl := some ⟨[[cellOf "Name", cellOf "Link"],
                    [cellOf "Store A", cellOf "https://youtu.be/abc123"]]⟩,
      isTitle := false }]⟩

/-- The §8 scenario trigger document. -/
def c2Doc : Pptx := ⟨[c2Slide1, c2Slide2]⟩

/-- §8 scenario environment: the destination folder holds no same-named
file, the YouTube download succeeds and produces a 4096-byte file. -/
def c2Env : PEnv :=
  { listFiles := fun _ _ => .ok [], getMeta := fun _ => .error (),
    driveOk := fun _ => false, ytOk := fun _ => true,
    sizeOf := fun _ => some 4096, uploadOk := fun _ => true }

/-- C1 counterexample: a childless folder holding a trigger file. -/
def c1B : FolderTree := .mk "B" ["p.pptx"] 1 .nil 0

/-- C1 counterexample: a childless folder without a trigger file. -/
def c1A : FolderTree := .mk "A" [] 0 .nil 0

/-- C1 counterexample root: two sub-folders, but the sub-folder listing's
first page only contains the first of them; the folder with the trigger file
sits on the second page. -/
def c1Root : FolderTree := .mk "root" [] 0 (.cons c1A (.cons c1B .nil)) 1

/-- C1 witness: a single-page tree — the root holds a trigger file, one
child does not, one grandchild-free child does. -/
def c1Wit : FolderTree :=
  .mk "r" ["t.pptx"] 1
    (.cons (.mk "c1" [] 0 .nil 0) (.cons (.mk "c2" ["x.pptx"] 1 .nil 0) .nil)) 2

/-- C8 witness: processing folder "A" raises. -/
def c8Fails : String → Bool := fun s => s == "A"

/-- C8 witness: actionable folder whose processing raises. -/
def c8A : FolderTree := .mk "A" ["a.pptx"] 1 .nil 0

/-- C8 witness: actionable sibling of the failing folder. -/
def c8B : FolderTree := .mk "B" ["b.pptx"] 1 .nil 0

/-- C8 witness root: both children on the first listing page. -/
def c8Root : FolderTree := .mk "r" [] 0 (.cons c8A (.cons c8B .nil)) 2

/-- C6 witness environment: the YouTube download succeeds but yields a
100-byte file. -/
def c6Env : PEnv :=
  { listFiles := fun _ _ => .ok [], getMeta := fun _ => .error (),
    driveOk := fun _ => false, ytOk := fun _ => true,
    sizeOf := fun _ => some 100, uploadOk := fun _ => true }

/-- C9 witness environment: every listing call raises `HttpError`, the
metadata fetch and download succeed, the downloaded file is large enough. -/
def c9Env : PEnv :=
  { listFiles := fun _ _ => .error (), getMeta := fun _ => .ok "vid.mp4",
    driveOk := fun _ => true, ytOk := fun _ => false,
    sizeOf := fun _ => some 2048, uploadOk := fun _ => true }

/-- C7: the empty remote folder state. -/
def dState0 : DState := ⟨[], 0⟩

/-- A one-paragraph, one-run text frame. -/
def tfOf (t : String) : TextFrame := ⟨[⟨[⟨t, none⟩]⟩]⟩

/-- C5 witness: the title placeholder of the target slide. -/
def c5Title : Shape :=
  { actionHlink := none, tf := some (tfOf "Commercial Terms"), tbl := none, isTitle := true }

/-- C5 witness: a body text box carrying one key-value line. -/
def c5Body : Shape :=
  { actionHlink := none, tf := some (tfOf "Store Size : 1200"), tbl := none, isTitle := false }

/-- C5 witness slide. -/
def c5WitSlide : Slide := ⟨[c5Title, c5Body]⟩

/-- C5 witness document. -/
def c5WitDoc : Pptx := ⟨[c5WitSlide]⟩

/-! # Theorems -/

/-! ## Generic helpers -/

theorem stringMk_ne_empty {l : List Char} (h : l ≠ []) : String.mk l ≠ "" := by
  intro he
  exact h (congrArg String.data he)

theorem mem_pyStripList {c : Char} {l : List Char} (h : c ∈ pyStripList l) : c ∈ l := by
  unfold pyStripList at h
  rw [List.mem_reverse] at h
  have h2 := List.Sublist.mem h (List.dropWhile_sublist pyIsSpace)
  rw [List.mem_reverse] at h2
  exact List.Sublist.mem h2 (List.dropWhile_sublist pyIsSpace)

/-! ## C3: sanitize_filename -/

/-- C3 (amended): `sanitize_filename` is total — for every input the result
is non-empty and contains none of the characters that the source's pattern
`[\\/:*?"<>|\n\r\t]` replaces, i.e. none of `\ / : * ? " < > |` and none of
newline, carriage return or tab.  (Control characters other than those
three are NOT removed; see the counterexample.) -/
theorem sanitize_filename_total_amended (s : String) :
    sanitize_filename s ≠ "" ∧
    ∀ c ∈ (sanitize_filename s).data, illegalChar c = false := by
  simp only [sanitize_filename]
  split
  · exact ⟨by decide, by decide⟩
  · next hne =>
    refine ⟨stringMk_ne_empty hne, ?_⟩
    intro c hc
    have hc2 : c ∈ s.data.map (fun c => if illegalChar c then '_' else c) :=
      mem_pyStripList hc
    rcases List.mem_map.mp hc2 with ⟨a, _, ha⟩
    by_cases hil : illegalChar a = true
    · simp only [hil, if_true] at ha
      subst ha
      decide
    · simp only [Bool.not_eq_true] at hil
      simp only [hil, if_false] at ha
      subst ha
      exact hil

/-- C3 counterexample: the control character `U+0001` is neither replaced
nor stripped — the sanitized output still contains a control character, so
the claim "the output contains no control characters" fails. -/
theorem sanitize_filename_control_char_cex :
    sanitize_filename "\x01" = "\x01" ∧ Char.val '\x01' < 32 := by
  exact ⟨by decide, by decide⟩

/-! ## C4 / C10: link de-duplication -/

theorem find?_dedupOverwrite (m : List (String × Option String)) (lk : String)
    (nm : Option String) (u : String) :
    (dedupOverwrite m lk nm).find? (fun p => p.1 == u) =
      (m.find? (fun p => p.1 == u)).map (fun q => if q.1 == lk then (q.1, nm) else q) := by
  unfold dedupOverwrite
  induction m with
  | nil => rfl
  | cons p m ih =>
    rw [List.map_cons, List.find?_cons, List.find?_cons]
    have hfst : ((if p.1 == lk then (p.1, nm) else p).1 == u) = (p.1 == u) := by
      by_cases hpl : p.1 == lk <;> simp [hpl]
    rw [hfst]
    by_cases hpu : p.1 == u
    · rw [hpu]
      rfl
    · simp only [Bool.not_eq_true] at hpu
      rw [hpu]
      simp only [cond_false]
      exact ih

theorem nameAt_overwrite (m : List (String × Option String)) (lk : String)
    (nm : Option String) (u : String) :
    nameAt (dedupOverwrite m lk nm) u =
      if lk == u then (nameAt m u).map (fun _ => nm) else nameAt m u := by
  unfold nameAt
  rw [find?_dedupOverwrite]
  cases hf : m.find? (fun p => p.1 == u) with
  | none => by_cases hlu : lk == u <;> simp [hlu]
  | some q =>
    have hq := List.find?_some hf
    simp only [beq_iff_eq] at hq
    by_cases hlu : lk == u
    · rw [beq_iff_eq] at hlu
      have hql : q.1 = lk := by rw [hq, hlu]
      simp [hql, hlu, beq_iff_eq, hq]
    · have hql : ¬ q.1 = lk := by
        intro hc
        exact hlu (by rw [beq_iff_eq, ← hc, hq])
      simp [hql, hlu]

theorem dedupIns_of_find?_none {m : List (String × Option String)} {nm : Option String}
    {lk : String} (h : m.find? (fun p => p.1 == lk) = none) :
    dedupIns m nm lk = m ++ [(lk, nm)] := by
  unfold dedupIns
  rw [h]

theorem dedupIns_of_find?_some {m : List (String × Option String)} {nm : Option String}
    {lk : String} {p : String × Option String}
    (h : m.find? (fun q => q.1 == lk) = some p) :
    dedupIns m nm lk =
      if pyTruthy nm && !(pyTruthy p.2) then dedupOverwrite m lk nm else m := by
  unfold dedupIns
  rw [h]


theorem nameAt_dedupIns (m : List (String × Option String)) (nm : Option String)
    (lk : String) (u : String) :
    nameAt (dedupIns m nm lk) u =
      if lk == u then mergeStep (nameAt m u) nm else nameAt m u := by
  cases hfind : m.find? (fun p => p.1 == lk) with
  | none =>
    rw [dedupIns_of_find?_none hfind]
    by_cases hlu : lk == u
    · have hu : m.find? (fun p => p.1 == u) = none := by
        rw [beq_iff_eq] at hlu
        rw [← hlu]
        exact hfind
      simp [nameAt, List.find?_append, hfind, hu, hlu, mergeStep]
    · simp only [Bool.not_eq_true] at hlu
      simp only [nameAt, List.find?_append, hlu, List.find?_singleton, cond_false]
      cases m.find? (fun p => p.1 == u) <;> simp
  | some p =>
    rw [dedupIns_of_find?_some hfind]
    by_cases hcond : pyTruthy nm && !(pyTruthy p.2)
    · rw [if_pos hcond, nameAt_overwrite]
      by_cases hlu : lk == u
      · have hu : m.find? (fun q => q.1 == u) = some p := by
          rw [beq_iff_eq] at hlu
          rw [← hlu]
          exact hfind
        simp [nameAt, hu, hlu, mergeStep, hcond]
      · simp [hlu]
    · rw [if_neg hcond]
      by_cases hlu : lk == u
      · have hu : m.find? (fun q => q.1 == u) = some p := by
          rw [beq_iff_eq] at hlu
          rw [← hlu]
          exact hfind
        simp only [nameAt, hu, hlu, if_true, mergeStep, Option.map_some]
        rw [Bool.not_eq_true] at hcond
        simp [hcond]
      · simp [hlu]

theorem nameAt_dedupGo (items : List (Option String × String)) :
    ∀ (m : List (String × Option String)) (u : String),
      nameAt (dedupGo m items) u = (namesFor u items).foldl mergeStep (nameAt m u) := by
  induction items with
  | nil => intro m u; simp [dedupGo, namesFor]
  | cons it rest ih =>
    intro m u
    simp only [dedupGo]
    rw [ih]
    by_cases hiu : it.2 == u
    · simp [namesFor, List.filter_cons, hiu, nameAt_dedupIns]
    · simp [namesFor, List.filter_cons, hiu, nameAt_dedupIns]

theorem keys_dedupOverwrite (m : List (String × Option String)) (lk : String)
    (nm : Option String) :
    (dedupOverwrite m lk nm).map Prod.fst = m.map Prod.fst := by
  unfold dedupOverwrite
  rw [List.map_map]
  apply List.map_congr_left
  intro q _
  by_cases h : q.1 = lk <;> simp [h]

theorem nodup_keys_dedupIns (m : List (String × Option String)) (nm : Option String)
    (lk : String) (h : (m.map Prod.fst).Nodup) :
    ((dedupIns m nm lk).map Prod.fst).Nodup := by
  cases hfind : m.find? (fun p => p.1 == lk) with
  | none =>
    rw [dedupIns_of_find?_none hfind, List.map_append, List.nodup_append]
    refine ⟨h, List.nodup_singleton _, ?_⟩
    intro x hx hx2
    simp at hx2
    subst hx2
    rcases List.mem_map.mp hx with ⟨q, hq, hq2⟩
    rw [List.find?_eq_none] at hfind
    exact hfind q hq (by rw [beq_iff_eq]; exact hq2)
  | some p =>
    rw [dedupIns_of_find?_some hfind]
    by_cases hcond : pyTruthy nm && !(pyTruthy p.2)
    · rw [if_pos hcond, keys_dedupOverwrite]
      exact h
    · rw [if_neg hcond]
      exact h

theorem nodup_keys_dedupGo (items : List (Option String × String)) :
    ∀ m : List (String × Option String), (m.map Prod.fst).Nodup →
      ((dedupGo m items).map Prod.fst).Nodup := by
  induction items with
  | nil => intro m h; exact h
  | cons it rest ih =>
    intro m h
    exact ih _ (nodup_keys_dedupIns m it.1 it.2 h)

/-- C4 (amended): the dedup loop returns at most one entry per exact URL
(the entry keys are pairwise distinct), and when the same URL is collected
exactly twice, once with a null name and once with a non-null, NON-EMPTY
name — in either order — the returned entry carries that name.  (An empty
string is non-null in Python but falsy, and the source tests truthiness:
a later empty name does not replace a null one; see the counterexample.) -/
theorem dedup_nonempty_name_wins :
    (∀ items : List (Option String × String),
      ((dedupLinks items).map Prod.fst).Nodup) ∧
    (∀ (items : List (Option String × String)) (u n : String),
      n ≠ "" →
      (namesFor u items = [none, some n] ∨ namesFor u items = [some n, none]) →
      nameAt (dedupLinks items) u = some (some n)) := by
  constructor
  · intro items
    exact nodup_keys_dedupGo items [] (by simp)
  · intro items u n hn hcase
    have hbase : nameAt [] u = none := by simp [nameAt]
    unfold dedupLinks
    rw [nameAt_dedupGo items [] u, hbase]
    have htr : pyTruthy (some n) = true := by
      simp [pyTruthy, hn]
    rcases hcase with h | h <;> rw [h] <;> simp [mergeStep, pyTruthy, htr, hn]

/-- C4 witness: URL `"u"` collected with `None` then `"Acme"`: the entry
carries `"Acme"`. -/
theorem dedup_nonempty_name_wins_witness :
    nameAt (dedupLinks [(none, "u"), (some "Acme", "u")]) "u" = some (some "Acme") :=
  dedup_nonempty_name_wins.2 [(none, "u"), (some "Acme", "u")] "u" "Acme"
    (by decide) (Or.inl (by decide))

/-- C4 counterexample: the same URL collected with a null name and then the
non-null empty name: the returned entry keeps the null name, so "the
non-null name wins" fails as stated. -/
theorem dedup_empty_name_cex :
    dedupLinks [(none, "u"), (some "", "u")] = [("u", none)] := by decide

/-- C10 (amended): when the same URL is collected twice with two non-null
names and the FIRST is non-empty, the first-seen name is kept.  (A later
non-null name does overwrite an earlier empty one, because the source tests
truthiness, not nullness; see the counterexample.) -/
theorem dedup_first_nonempty_name_kept :
    ∀ (items : List (Option String × String)) (u n1 n2 : String),
      n1 ≠ "" → namesFor u items = [some n1, some n2] →
      nameAt (dedupLinks items) u = some (some n1) := by
  intro items u n1 n2 hn1 hcase
  have hbase : nameAt [] u = none := by simp [nameAt]
  unfold dedupLinks
  rw [nameAt_dedupGo items [] u, hbase, hcase]
  simp [mergeStep, pyTruthy, hn1]

/-- C10 witness: URL `"w"` collected with `"Acme"` then `"Beta"`: the first
name is kept. -/
theorem dedup_first_nonempty_name_kept_witness :
    nameAt (dedupLinks [(some "Acme", "w"), (some "Beta", "w")]) "w" = some (some "Acme") :=
  dedup_first_nonempty_name_kept [(some "Acme", "w"), (some "Beta", "w")] "w"
    "Acme" "Beta" (by decide) (by decide)

/-- C10 counterexample: the same URL collected with the non-null empty name
and then `"B"`: the later name overwrites the earlier non-null one, so
"a later non-null name never overwrites an earlier non-null name" fails. -/
theorem dedup_empty_first_name_overwritten_cex :
    dedupLinks [(some "", "v"), (some "B", "v")] = [("v", some "B")] := by decide

/-! ## C1: the recursive walker -/

mutual
theorem crawlVisits_singlePage : ∀ t : FolderTree, singlePage t = true →
    crawlVisits t = ((allFolders t).filter hasTrigger).map FolderTree.fid
  | .mk i pf pfn subs sfn, h => by
    simp only [singlePage, Bool.and_eq_true, decide_eq_true_eq] at h
    obtain ⟨⟨hpf, hsub⟩, hspf⟩ := h
    have hrec := crawlVisitsF_singlePage sfn subs hsub hspf
    simp only [crawlVisits, allFolders, List.filter_cons]
    rw [List.take_of_length_le hpf]
    by_cases hem : pf.isEmpty
    · have : hasTrigger (FolderTree.mk i pf pfn subs sfn) = false := by
        simp [hasTrigger, FolderTree.pptx, hem]
      rw [this]
      simp only [Bool.false_eq_true, if_false, hem, if_true, List.nil_append]
      exact hrec
    · have : hasTrigger (FolderTree.mk i pf pfn subs sfn) = true := by
        simp only [hasTrigger, FolderTree.pptx]
        simp only [Bool.not_eq_true] at hem ⊢
        simp [hem]
      rw [this]
      simp only [if_true, List.map_cons, FolderTree.fid]
      rw [Bool.not_eq_true] at hem
      simp only [hem, Bool.false_eq_true, if_false]
      rw [hrec]
      rfl
theorem crawlVisitsF_singlePage : ∀ (n : Nat) (f : FolderForest),
    f.toList.length ≤ n → singlePageF f = true →
    crawlVisitsF n f = ((allFoldersF f).filter hasTrigger).map FolderTree.fid
  | n, .nil, _, _ => by
    cases n <;> simp [crawlVisitsF, allFoldersF]
  | 0, .cons t ts, hlen, _ => by
    simp [FolderForest.toList] at hlen
  | n + 1, .cons t ts, hlen, hsp => by
    simp only [singlePageF, Bool.and_eq_true] at hsp
    simp only [FolderForest.toList, List.length_cons, Nat.add_le_add_iff_right] at hlen
    have h1 := crawlVisits_singlePage t hsp.1
    have h2 := crawlVisitsF_singlePage n ts hlen hsp.2
    simp only [crawlVisitsF, allFoldersF, List.filter_append, List.map_append]
    rw [h1, h2]
end

/-- C1 (amended): when every listing fits in a single page, the walker
invokes the downstream pipeline exactly once per folder that directly
contains a trigger file — the visit list equals the depth-first enumeration
of trigger folders, so its length is `K`.  (The walker follows no
continuation tokens: it issues one list call per query and reads only the
first page, so results on later pages are missed; see the
counterexample.) -/
theorem crawl_invokes_once_per_trigger_folder (t : FolderTree)
    (h : singlePage t = true) :
    crawlVisits t = ((allFolders t).filter hasTrigger).map FolderTree.fid ∧
    (crawlVisits t).length = triggerCount t := by
  refine ⟨crawlVisits_singlePage t h, ?_⟩
  rw [crawlVisits_singlePage t h, List.length_map]
  rfl

/-- C1 witness: a single-page tree with three folders of which two hold a
trigger file: the walker visits exactly those two, in depth-first order. -/
theorem crawl_invokes_once_witness :
    singlePage c1Wit = true ∧ crawlVisits c1Wit = ["r", "c2"] ∧
    (crawlVisits c1Wit).length = triggerCount c1Wit :=
  ⟨by decide,
   by rw [(crawl_invokes_once_per_trigger_folder c1Wit (by decide)).1]; decide,
   (crawl_invokes_once_per_trigger_folder c1Wit (by decide)).2⟩

/-- C1 counterexample: the root has two sub-folders but the sub-folder
listing's first page holds only the one without a trigger file.  The tree
has `K = 1` trigger folders, yet the walk — which never follows the
continuation token — invokes the pipeline zero times. -/
theorem crawl_misses_second_page_cex :
    crawlVisits c1Root = [] ∧ triggerCount c1Root = 1 := by
  exact ⟨by decide, by decide⟩

/-! ## C8: exceptions are caught per folder -/

theorem crawlBody_fst (fails : String → Bool) (t : FolderTree) :
    (crawlBody fails t).1 = crawlCatchVisits fails t := by
  cases t with
  | mk i pf pfn subs sfn =>
    simp only [crawlBody, crawlCatchVisits]
    by_cases hc : !(pf.take pfn).isEmpty && fails i <;> simp [hc]

theorem mem_crawlCatchVisitsF (fails : String → Bool) (x : String) :
    ∀ (n : Nat) (f : FolderForest) (c : FolderTree),
      c ∈ f.toList.take n → x ∈ crawlCatchVisits fails c →
      x ∈ crawlCatchVisitsF fails n f
  | _, .nil, c, hc, _ => by simp [FolderForest.toList] at hc
  | 0, .cons t ts, c, hc, _ => by simp at hc
  | n + 1, .cons t ts, c, hc, hx => by
    simp only [FolderForest.toList, List.take_succ_cons, List.mem_cons] at hc
    rcases hc with hc | hc
    · subst hc
      exact List.mem_append_left _ hx
    · exact List.mem_append_right _ (mem_crawlCatchVisitsF fails x n ts c hc hx)

theorem mem_crawlCatchVisits_self (fails : String → Bool) (g : FolderTree)
    (hg : trigFP g = true) : g.fid ∈ crawlCatchVisits fails g := by
  cases g with
  | mk i pf pfn subs sfn =>
    simp only [trigFP, FolderTree.pptx, FolderTree.pptxFirst] at hg
    have hem : (List.take pfn pf).isEmpty = false := by
      rwa [Bool.not_eq_true'] at hg
    simp only [crawlCatchVisits, FolderTree.fid, hem]
    by_cases hf : fails i
    · simp [hf]
    · simp [hf]

theorem okPath_mem (fails : String → Bool) :
    ∀ t g : FolderTree, OkPath fails t g → trigFP g = true →
      g.fid ∈ crawlCatchVisits fails t := by
  intro t g hpath
  induction hpath with
  | refl t => exact mem_crawlCatchVisits_self fails t
  | step t c g hna hc _ ih =>
    intro hg
    cases t with
    | mk i pf pfn subs sfn =>
      have hcond : (!(pf.take pfn).isEmpty && fails i) = false := by
        rw [Bool.and_eq_false_iff]
        by_cases htr : trigFP (FolderTree.mk i pf pfn subs sfn)
        · right
          by_cases hfi : fails i
          · exact absurd ⟨htr, hfi⟩ hna
          · rwa [Bool.not_eq_true] at hfi
        · left
          simp only [trigFP, FolderTree.pptx, FolderTree.pptxFirst,
            Bool.not_eq_true] at htr
          simp [htr]
      simp only [crawlCatchVisits, hcond, Bool.false_eq_true, if_false]
      refine List.mem_append_right _ ?_
      exact mem_crawlCatchVisitsF fails g.fid sfn subs c hc (ih hg)

/-- C8: the walk never lets a processing exception escape (the `except`
clause of `crawl` wraps the whole body), and a failure while processing one
folder does not abort the walk of its siblings or ancestors: every walker-
reachable actionable folder whose strict ancestors do not themselves fail is
still invoked, whatever other folders fail — including the failing folder
itself, which is invoked before its exception is raised. -/
theorem crawl_catches_and_continues :
    (∀ (fails : String → Bool) (t : FolderTree), (crawlCatch fails t).2 = false) ∧
    (∀ (fails : String → Bool) (t g : FolderTree),
      OkPath fails t g → trigFP g = true → g.fid ∈ (crawlCatch fails t).1) := by
  constructor
  · intro fails t
    rfl
  · intro fails t g hpath hg
    rw [show (crawlCatch fails t).1 = (crawlBody fails t).1 from rfl, crawlBody_fst]
    exact okPath_mem fails t g hpath hg

/-- C8 witness: folders "A" and "B" are both actionable first-page children
of the root; processing "A" raises, yet "B" is still invoked and nothing
escapes the top-level walk. -/
theorem crawl_catches_witness :
    (crawlCatch c8Fails c8Root).2 = false ∧ "B" ∈ (crawlCatch c8Fails c8Root).1 :=
  ⟨crawl_catches_and_continues.1 c8Fails c8Root,
   crawl_catches_and_continues.2 c8Fails c8Root c8B
    (OkPath.step c8Root c8B c8B (by decide)
      (List.mem_cons_of_mem _ (List.mem_cons_self _ _)) (OkPath.refl c8B))
    (by decide)⟩

/-! ## C7: the uploader / dedup guard -/

theorem uploadQuery_append (st : DState) (extra : List DFile) (nm parent : String) :
    uploadQuery ⟨st.files ++ extra, st.nextId⟩ nm parent =
      uploadQuery st nm parent ++
        extra.filter (fun f => f.name == nm && !f.isFolder && f.parent == parent && !f.trashed) := by
  simp [uploadQuery, List.filter_append]

theorem uploadViews_create {st : DState} {nm parent : String} (c : Nat)
    (h : uploadQuery st nm parent = []) :
    uploadViews st nm parent c =
      (⟨st.files ++ [⟨st.nextId, nm, parent, false, false, c⟩], st.nextId + 1⟩, st.nextId) := by
  unfold uploadViews
  rw [h]
  rfl

theorem uploadViews_update {st : DState} {nm parent : String} (c : Nat) {f : DFile}
    (h : (uploadQuery st nm parent).head? = some f) :
    uploadViews st nm parent c =
      (⟨st.files.map (fun g => if g.fidn = f.fidn then { g with content := c } else g),
        st.nextId⟩, f.fidn) := by
  unfold uploadViews
  rw [h]

/-- C7 (amended): the `drive_uploader/views.py` copy of
`upload_file_to_drive` is idempotent: starting from a state with no
non-trashed, non-folder file of the given name in the destination folder
(and a fresh id counter), running it twice leaves exactly one such file —
the second run updates the first run's file in place, returning the same
identifier and replacing the content.  (The `uploader/utils.py` copy named
in the claim creates unconditionally and DOES duplicate on a second run;
see the counterexample.) -/
theorem upload_dedup_views_idempotent (st : DState) (nm parent : String)
    (c1 c2 : Nat) (hq : uploadQuery st nm parent = [])
    (hfresh : ∀ f ∈ st.files, f.fidn < st.nextId) :
    uploadQuery (uploadViews (uploadViews st nm parent c1).1 nm parent c2).1 nm parent =
      [⟨st.nextId, nm, parent, false, false, c2⟩] ∧
    (uploadViews (uploadViews st nm parent c1).1 nm parent c2).2 =
      (uploadViews st nm parent c1).2 := by
  have hrun1 := uploadViews_create c1 hq
  set nf1 : DFile := ⟨st.nextId, nm, parent, false, false, c1⟩ with hnf1
  have hq1 : uploadQuery (uploadViews st nm parent c1).1 nm parent = [nf1] := by
    rw [hrun1]
    rw [show (⟨st.files ++ [nf1], st.nextId + 1⟩ : DState) =
        ⟨(⟨st.files, st.nextId + 1⟩ : DState).files ++ [nf1], st.nextId + 1⟩ from rfl]
    rw [uploadQuery_append]
    have : uploadQuery ⟨st.files, st.nextId + 1⟩ nm parent = [] := by
      simpa [uploadQuery] using hq
    rw [this]
    simp [nf1]
  have hmap : (uploadViews st nm parent c1).1.files.map
      (fun g => if g.fidn = nf1.fidn then { g with content := c2 } else g) =
      st.files ++ [⟨st.nextId, nm, parent, false, false, c2⟩] := by
    rw [hrun1]
    simp only [List.map_append]
    congr 1
    · conv_rhs => rw [← List.map_id st.files]
      apply List.map_congr_left
      intro f hf
      have : f.fidn ≠ nf1.fidn := by
        intro hc
        have := hfresh f hf
        rw [hc] at this
        simp [nf1] at this
      simp [this]
    · simp [nf1]
  have hhead : (uploadQuery (uploadViews st nm parent c1).1 nm parent).head? = some nf1 := by
    rw [hq1]
    rfl
  have hrun2 := uploadViews_update c2 hhead
  constructor
  · rw [hrun2]
    simp only [uploadQuery] at hq ⊢
    rw [hmap, List.filter_append, hq]
    simp [nf1]
  · rw [hrun2, hrun1]

/-- C7 witness: uploading `"f.mp4"` twice into an empty folder leaves
exactly one file of that name, and the second run returns the first run's
identifier. -/
theorem upload_dedup_views_witness :
    uploadQuery (uploadViews (uploadViews dState0 "f.mp4" "dst" 1).1 "f.mp4" "dst" 2).1
        "f.mp4" "dst" = [⟨0, "f.mp4", "dst", false, false, 2⟩] ∧
    (uploadViews (uploadViews dState0 "f.mp4" "dst" 1).1 "f.mp4" "dst" 2).2 =
      (uploadViews dState0 "f.mp4" "dst" 1).2 :=
  upload_dedup_views_idempotent dState0 "f.mp4" "dst" 1 2 (by decide) (by intro f hf; simp [dState0] at hf)

/-- C7 counterexample: the `uploader/utils.py` copy of
`upload_file_to_drive` — also named by the claim — never queries for an
existing file: running it twice from an empty folder leaves TWO non-trashed
files with the same name, so the claim fails for that copy. -/
theorem upload_utils_duplicates_cex :
    (uploadQuery (uploadUtils (uploadUtils dState0 "f.mp4" "dst" 1).1 "f.mp4" "dst" 2).1
      "f.mp4" "dst").length = 2 := by decide

/-! ## C6: the undersized-download guard -/

theorem upload_mem_afterDownload {env : PEnv} {ok : Bool} {fn lp fid nm p fo : String}
    (h : Act.upload nm p fo ∈ afterDownload env ok fn lp fid) :
    p = lp ∧ ∃ s, env.sizeOf lp = some s ∧ ¬ s < 1024 := by
  cases ok with
  | false => simp [afterDownload] at h
  | true =>
    cases hs : env.sizeOf lp with
    | none => simp [afterDownload, hs] at h
    | some s =>
      by_cases hlt : s < 1024
      · simp [afterDownload, hs, hlt] at h
      · simp [afterDownload, hs, hlt] at h
        exact ⟨h.2.1, s, rfl, hlt⟩

theorem upload_mem_afterDownloadT {env : PEnv} {ok : Bool} {fn lp fid nm p fo : String}
    (h : Act.upload nm p fo ∈ afterDownloadT env ok fn lp fid) :
    p = lp ∧ ∃ s, env.sizeOf lp = some s ∧ ¬ s < 1024 := by
  cases ok with
  | false => simp [afterDownloadT] at h
  | true =>
    cases hs : env.sizeOf lp with
    | none => simp [afterDownloadT, hs] at h
    | some s =>
      by_cases hlt : s < 1024
      · simp [afterDownloadT, hs, hlt] at h
      · simp only [afterDownloadT, hs, hlt, if_true, if_false] at h
        rw [List.mem_cons] at h
        rcases h with h | h
        · rw [Act.upload.injEq] at h
          exact ⟨h.2.1, s, rfl, hlt⟩
        · by_cases hup : env.uploadOk fn <;> simp [hup] at h

theorem upload_mem_processItem {env : PEnv} {fid td pfx nm p fo : String}
    {it : Option String × String}
    (h : Act.upload nm p fo ∈ processItem env fid td pfx it) :
    ∃ s, env.sizeOf p = some s ∧ ¬ s < 1024 := by
  unfold processItem at h
  split at h
  · unfold driveBranch at h
    rw [List.mem_cons] at h
    rcases h with h | h
    · simp at h
    · split at h
      · simp at h
      · rw [List.mem_cons] at h
        rcases h with h | h
        · simp at h
        · split at h
          · simp at h
          · rw [List.mem_cons] at h
            rcases h with h | h
            · simp at h
            · obtain ⟨hp, s, hs, hlt⟩ := upload_mem_afterDownload h
              subst hp
              exact ⟨s, hs, hlt⟩
  · split at h
    · unfold ytBranch at h
      rw [List.mem_cons] at h
      rcases h with h | h
      · simp at h
      · split at h
        · simp at h
        · rw [List.mem_cons] at h
          rcases h with h | h
          · simp at h
          · obtain ⟨hp, s, hs, hlt⟩ := upload_mem_afterDownload h
            subst hp
            exact ⟨s, hs, hlt⟩
    · simp at h

theorem upload_mem_processItemT {env : PEnv} {fid td nm p fo : String}
    {it : Option String × String}
    (h : Act.upload nm p fo ∈ processItemT env fid td it) :
    ∃ s, env.sizeOf p = some s ∧ ¬ s < 1024 := by
  unfold processItemT at h
  split at h
  · unfold driveBranchT at h
    rw [List.mem_cons] at h
    rcases h with h | h
    · simp at h
    · split at h
      · simp at h
      · rw [List.mem_cons] at h
        rcases h with h | h
        · simp at h
        · split at h
          · simp at h
          · rw [List.mem_cons] at h
            rcases h with h | h
            · simp at h
            · obtain ⟨hp, s, hs, hlt⟩ := upload_mem_afterDownloadT h
              subst hp
              exact ⟨s, hs, hlt⟩
  · split at h
    · unfold ytBranchT at h
      rw [List.mem_cons] at h
      rcases h with h | h
      · simp at h
      · split at h
        · simp at h
        · rw [List.mem_cons] at h
          rcases h with h | h
          · simp at h
          · obtain ⟨hp, s, hs, hlt⟩ := upload_mem_afterDownloadT h
            subst hp
            exact ⟨s, hs, hlt⟩
    · simp at h

theorem upload_mem_processAll {env : PEnv} {fid td pfx nm p fo : String} :
    ∀ (items : List (Option String × String)) (seen : List String),
      Act.upload nm p fo ∈ processAll env fid td pfx seen items →
      ∃ s, env.sizeOf p = some s ∧ ¬ s < 1024 := by
  intro items
  induction items with
  | nil => intro seen h; simp [processAll] at h
  | cons it rest ih =>
    intro seen h
    unfold processAll at h
    split at h
    · exact ih _ h
    · rw [List.mem_append] at h
      rcases h with h | h
      · exact upload_mem_processItem h
      · exact ih _ h

theorem upload_mem_processAllT {env : PEnv} {fid td nm p fo : String} :
    ∀ (items : List (Option String × String)) (seen : List String),
      Act.upload nm p fo ∈ processAllT env fid td seen items →
      ∃ s, env.sizeOf p = some s ∧ ¬ s < 1024 := by
  intro items
  induction items with
  | nil => intro seen h; simp [processAllT] at h
  | cons it rest ih =>
    intro seen h
    unfold processAllT at h
    split at h
    · exact ih _ h
    · rw [List.mem_append] at h
      rcases h with h | h
      · exact upload_mem_processItemT h
      · exact ih _ h

theorem afterDownload_small (env : PEnv) (fn lp fid : String) {s : Nat}
    (hs : env.sizeOf lp = some s) (hlt : s < 1024) :
    afterDownload env true fn lp fid = [Act.removeLocal lp] := by
  simp [afterDownload, hs, hlt]

theorem afterDownloadT_small (env : PEnv) (fn lp fid : String) {s : Nat}
    (hs : env.sizeOf lp = some s) (hlt : s < 1024) :
    afterDownloadT env true fn lp fid = [Act.removeLocal lp] := by
  simp [afterDownloadT, hs, hlt]

theorem not_dlDrive_mem_afterDownload {env : PEnv} {ok : Bool} {fn lp fid v p : String} :
    Act.downloadDrive v p ∉ afterDownload env ok fn lp fid := by
  cases ok with
  | false => simp [afterDownload]
  | true =>
    cases hs : env.sizeOf lp with
    | none => simp [afterDownload, hs]
    | some s => by_cases hlt : s < 1024 <;> simp [afterDownload, hs, hlt]

theorem not_dlYt_mem_afterDownload {env : PEnv} {ok : Bool} {fn lp fid v p : String} :
    Act.downloadYt v p ∉ afterDownload env ok fn lp fid := by
  cases ok with
  | false => simp [afterDownload]
  | true =>
    cases hs : env.sizeOf lp with
    | none => simp [afterDownload, hs]
    | some s => by_cases hlt : s < 1024 <;> simp [afterDownload, hs, hlt]

theorem not_dlDrive_mem_afterDownloadT {env : PEnv} {ok : Bool} {fn lp fid v p : String} :
    Act.downloadDrive v p ∉ afterDownloadT env ok fn lp fid := by
  cases ok with
  | false => simp [afterDownloadT]
  | true =>
    cases hs : env.sizeOf lp with
    | none => simp [afterDownloadT, hs]
    | some s =>
      by_cases hlt : s < 1024
      · simp [afterDownloadT, hs, hlt]
      · by_cases hup : env.uploadOk fn <;> simp [afterDownloadT, hs, hlt, hup]

theorem not_dlYt_mem_afterDownloadT {env : PEnv} {ok : Bool} {fn lp fid v p : String} :
    Act.downloadYt v p ∉ afterDownloadT env ok fn lp fid := by
  cases ok with
  | false => simp [afterDownloadT]
  | true =>
    cases hs : env.sizeOf lp with
    | none => simp [afterDownloadT, hs]
    | some s =>
      by_cases hlt : s < 1024
      · simp [afterDownloadT, hs, hlt]
      · by_cases hup : env.uploadOk fn <;> simp [afterDownloadT, hs, hlt, hup]

theorem remove_drive_driveBranch {env : PEnv} {fid td pfx vid v p : String}
    {sugg : Option String} {s : Nat}
    (hdl : Act.downloadDrive v p ∈ driveBranch env fid td pfx sugg vid)
    (hok : env.driveOk v = true) (hs : env.sizeOf p = some s) (hlt : s < 1024) :
    Act.removeLocal p ∈ driveBranch env fid td pfx sugg vid := by
  unfold driveBranch at hdl ⊢
  cases hm : env.getMeta vid with
  | error e => simp [hm] at hdl
  | ok orig =>
    simp only [hm] at hdl ⊢
    by_cases hchk : check_file_exists env (finalNameDrive pfx sugg orig) fid
    · simp [hchk] at hdl
    · simp only [hchk, Bool.false_eq_true, if_false] at hdl ⊢
      rw [List.mem_cons, List.mem_cons, List.mem_cons] at hdl
      rcases hdl with h | h | h | h
      · simp at h
      · simp at h
      · rw [Act.downloadDrive.injEq] at h
        obtain ⟨hv, hp⟩ := h
        subst hv
        rw [List.mem_cons, List.mem_cons, List.mem_cons]
        right; right; right
        rw [← hp, hok, afterDownload_small env _ _ _ hs hlt]
        exact List.mem_singleton.mpr rfl
      · exact absurd h not_dlDrive_mem_afterDownload

theorem remove_yt_ytBranch {env : PEnv} {fid td pfx link v p : String}
    {sugg : Option String} {s : Nat}
    (hdl : Act.downloadYt v p ∈ ytBranch env fid td pfx sugg link)
    (hok : env.ytOk v = true) (hs : env.sizeOf p = some s) (hlt : s < 1024) :
    Act.removeLocal p ∈ ytBranch env fid td pfx sugg link := by
  unfold ytBranch at hdl ⊢
  by_cases hchk : check_file_exists env (finalNameYt pfx sugg) fid
  · simp [hchk] at hdl
  · simp only [hchk, Bool.false_eq_true, if_false] at hdl ⊢
    rw [List.mem_cons, List.mem_cons] at hdl
    rcases hdl with h | h | h
    · simp at h
    · rw [Act.downloadYt.injEq] at h
      obtain ⟨hv, hp⟩ := h
      subst hv
      rw [List.mem_cons, List.mem_cons]
      right; right
      rw [← hp, hok, afterDownload_small env _ _ _ hs hlt]
      exact List.mem_singleton.mpr rfl
    · exact absurd h not_dlYt_mem_afterDownload

theorem not_dlYt_mem_driveBranch {env : PEnv} {fid td pfx vid v p : String}
    {sugg : Option String} :
    Act.downloadYt v p ∉ driveBranch env fid td pfx sugg vid := by
  unfold driveBranch
  intro h
  rw [List.mem_cons] at h
  rcases h with h | h
  · simp at h
  · cases hm : env.getMeta vid with
    | error e => rw [hm] at h; simp at h
    | ok orig =>
      rw [hm] at h
      rw [List.mem_cons] at h
      rcases h with h | h
      · simp at h
      · split at h
        · simp at h
        · rw [List.mem_cons] at h
          rcases h with h | h
          · simp at h
          · exact not_dlYt_mem_afterDownload h

theorem not_dlDrive_mem_ytBranch {env : PEnv} {fid td pfx link v p : String}
    {sugg : Option String} :
    Act.downloadDrive v p ∉ ytBranch env fid td pfx sugg link := by
  unfold ytBranch
  intro h
  rw [List.mem_cons] at h
  rcases h with h | h
  · simp at h
  · split at h
    · simp at h
    · rw [List.mem_cons] at h
      rcases h with h | h
      · simp at h
      · exact not_dlDrive_mem_afterDownload h

theorem remove_of_small_processItem {env : PEnv} {fid td pfx v p : String}
    {it : Option String × String} {s : Nat}
    (hdl : (Act.downloadDrive v p ∈ processItem env fid td pfx it ∧ env.driveOk v = true) ∨
           (Act.downloadYt v p ∈ processItem env fid td pfx it ∧ env.ytOk v = true))
    (hs : env.sizeOf p = some s) (hlt : s < 1024) :
    Act.removeLocal p ∈ processItem env fid td pfx it := by
  unfold processItem at hdl ⊢
  cases hdm : driveMatch it.2 with
  | some vid =>
    simp only [hdm] at hdl ⊢
    rcases hdl with ⟨h, hok⟩ | ⟨h, _⟩
    · exact remove_drive_driveBranch h hok hs hlt
    · exact absurd h not_dlYt_mem_driveBranch
  | none =>
    simp only [hdm] at hdl ⊢
    cases hym : ytMatch it.2 with
    | some y =>
      simp only [hym] at hdl ⊢
      rcases hdl with ⟨h, _⟩ | ⟨h, hok⟩
      · exact absurd h not_dlDrive_mem_ytBranch
      · exact remove_yt_ytBranch h hok hs hlt
    | none =>
      simp only [hym] at hdl
      rcases hdl with ⟨h, _⟩ | ⟨h, _⟩ <;> simp at h

theorem remove_of_small_processAll {env : PEnv} {fid td pfx v p : String} {s : Nat} :
    ∀ (items : List (Option String × String)) (seen : List String),
      ((Act.downloadDrive v p ∈ processAll env fid td pfx seen items ∧ env.driveOk v = true) ∨
       (Act.downloadYt v p ∈ processAll env fid td pfx seen items ∧ env.ytOk v = true)) →
      env.sizeOf p = some s → s < 1024 →
      Act.removeLocal p ∈ processAll env fid td pfx seen items := by
  intro items
  induction items with
  | nil =>
    intro seen hdl _ _
    rcases hdl with ⟨h, _⟩ | ⟨h, _⟩ <;> simp [processAll] at h
  | cons it rest ih =>
    intro seen hdl hs hlt
    unfold processAll at hdl ⊢
    split at hdl
    · next hseen =>
      rw [if_pos hseen]
      exact ih _ hdl hs hlt
    · next hseen =>
      rw [if_neg hseen]
      rcases hdl with ⟨h, hok⟩ | ⟨h, hok⟩
      · rw [List.mem_append] at h
        rcases h with h | h
        · exact List.mem_append_left _
            (remove_of_small_processItem (Or.inl ⟨h, hok⟩) hs hlt)
        · exact List.mem_append_right _ (ih _ (Or.inl ⟨h, hok⟩) hs hlt)
      · rw [List.mem_append] at h
        rcases h with h | h
        · exact List.mem_append_left _
            (remove_of_small_processItem (Or.inr ⟨h, hok⟩) hs hlt)
        · exact List.mem_append_right _ (ih _ (Or.inr ⟨h, hok⟩) hs hlt)

theorem remove_drive_driveBranchT {env : PEnv} {fid td vid v p : String}
    {sugg : Option String} {s : Nat}
    (hdl : Act.downloadDrive v p ∈ driveBranchT env fid td sugg vid)
    (hok : env.driveOk v = true) (hs : env.sizeOf p = some s) (hlt : s < 1024) :
    Act.removeLocal p ∈ driveBranchT env fid td sugg vid := by
  unfold driveBranchT at hdl ⊢
  cases hm : env.getMeta vid with
  | error e => simp [hm] at hdl
  | ok orig =>
    simp only [hm] at hdl ⊢
    by_cases hchk : check_file_exists env (finalNameDrive "" sugg orig) fid
    · simp [hchk] at hdl
    · simp only [hchk, Bool.false_eq_true, if_false] at hdl ⊢
      rw [List.mem_cons, List.mem_cons, List.mem_cons] at hdl
      rcases hdl with h | h | h | h
      · simp at h
      · simp at h
      · rw [Act.downloadDrive.injEq] at h
        obtain ⟨hv, hp⟩ := h
        subst hv
        rw [List.mem_cons, List.mem_cons, List.mem_cons]
        right; right; right
        rw [← hp, hok, afterDownloadT_small env _ _ _ hs hlt]
        exact List.mem_singleton.mpr rfl
      · exact absurd h not_dlDrive_mem_afterDownloadT

theorem remove_yt_ytBranchT {env : PEnv} {fid td link v p : String}
    {sugg : Option String} {s : Nat}
    (hdl : Act.downloadYt v p ∈ ytBranchT env fid td sugg link)
    (hok : env.ytOk v = true) (hs : env.sizeOf p = some s) (hlt : s < 1024) :
    Act.removeLocal p ∈ ytBranchT env fid td sugg link := by
  unfold ytBranchT at hdl ⊢
  by_cases hchk : check_file_exists env (finalNameYt "" sugg) fid
  · simp [hchk] at hdl
  · simp only [hchk, Bool.false_eq_true, if_false] at hdl ⊢
    rw [List.mem_cons, List.mem_cons] at hdl
    rcases hdl with h | h | h
    · simp at h
    · rw [Act.downloadYt.injEq] at h
      obtain ⟨hv, hp⟩ := h
      subst hv
      rw [List.mem_cons, List.mem_cons]
      right; right
      rw [← hp, hok, afterDownloadT_small env _ _ _ hs hlt]
      exact List.mem_singleton.mpr rfl
    · exact absurd h not_dlYt_mem_afterDownloadT

theorem not_dlYt_mem_driveBranchT {env : PEnv} {fid td vid v p : String}
    {sugg : Option String} :
    Act.downloadYt v p ∉ driveBranchT env fid td sugg vid := by
  unfold driveBranchT
  intro h
  rw [List.mem_cons] at h
  rcases h with h | h
  · simp at h
  · cases hm : env.getMeta vid with
    | error e => rw [hm] at h; simp at h
    | ok orig =>
      rw [hm] at h
      rw [List.mem_cons] at h
      rcases h with h | h
      · simp at h
      · split at h
        · simp at h
        · rw [List.mem_cons] at h
          rcases h with h | h
          · simp at h
          · exact not_dlYt_mem_afterDownloadT h

theorem not_dlDrive_mem_ytBranchT {env : PEnv} {fid td link v p : String}
    {sugg : Option String} :
    Act.downloadDrive v p ∉ ytBranchT env fid td sugg link := by
  unfold ytBranchT
  intro h
  rw [List.mem_cons] at h
  rcases h with h | h
  · simp at h
  · split at h
    · simp at h
    · rw [List.mem_cons] at h
      rcases h with h | h
      · simp at h
      · exact not_dlDrive_mem_afterDownloadT h

theorem remove_of_small_processItemT {env : PEnv} {fid td v p : String}
    {it : Option String × String} {s : Nat}
    (hdl : (Act.downloadDrive v p ∈ processItemT env fid td it ∧ env.driveOk v = true) ∨
           (Act.downloadYt v p ∈ processItemT env fid td it ∧ env.ytOk v = true))
    (hs : env.sizeOf p = some s) (hlt : s < 1024) :
    Act.removeLocal p ∈ processItemT env fid td it := by
  unfold processItemT at hdl ⊢
  cases hdm : driveMatch it.2 with
  | some vid =>
    simp only [hdm] at hdl ⊢
    rcases hdl with ⟨h, hok⟩ | ⟨h, _⟩
    · exact remove_drive_driveBranchT h hok hs hlt
    · exact absurd h not_dlYt_mem_driveBranchT
  | none =>
    simp only [hdm] at hdl ⊢
    cases hym : ytMatch it.2 with
    | some y =>
      simp only [hym] at hdl ⊢
      rcases hdl with ⟨h, _⟩ | ⟨h, hok⟩
      · exact absurd h not_dlDrive_mem_ytBranchT
      · exact remove_yt_ytBranchT h hok hs hlt
    | none =>
      simp only [hym] at hdl
      rcases hdl with ⟨h, _⟩ | ⟨h, _⟩ <;> simp at h

theorem remove_of_small_processAllT {env : PEnv} {fid td v p : String} {s : Nat} :
    ∀ (items : List (Option String × String)) (seen : List String),
      ((Act.downloadDrive v p ∈ processAllT env fid td seen items ∧ env.driveOk v = true) ∨
       (Act.downloadYt v p ∈ processAllT env fid td seen items ∧ env.ytOk v = true)) →
      env.sizeOf p = some s → s < 1024 →
      Act.removeLocal p ∈ processAllT env fid td seen items := by
  intro items
  induction items with
  | nil =>
    intro seen hdl _ _
    rcases hdl with ⟨h, _⟩ | ⟨h, _⟩ <;> simp [processAllT] at h
  | cons it rest ih =>
    intro seen hdl hs hlt
    unfold processAllT at hdl ⊢
    split at hdl
    · next hseen =>
      rw [if_pos hseen]
      exact ih _ hdl hs hlt
    · next hseen =>
      rw [if_neg hseen]
      rcases hdl with ⟨h, hok⟩ | ⟨h, hok⟩
      · rw [List.mem_append] at h
        rcases h with h | h
        · exact List.mem_append_left _
            (remove_of_small_processItemT (Or.inl ⟨h, hok⟩) hs hlt)
        · exact List.mem_append_right _ (ih _ (Or.inl ⟨h, hok⟩) hs hlt)
      · rw [List.mem_append] at h
        rcases h with h | h
        · exact List.mem_append_left _
            (remove_of_small_processItemT (Or.inr ⟨h, hok⟩) hs hlt)
        · exact List.mem_append_right _ (ih _ (Or.inr ⟨h, hok⟩) hs hlt)

/-- C6: in both per-link loops (`process_video_links_internal` and
`process_videos_from_ppt_links`), a downloaded file whose size is below 1024
bytes is never uploaded (no upload action ever names a local path whose size
is < 1024), the local file is removed, and the loop moves on to the next
link (each iteration's actions are a prefix of the trace, followed by the
processing of the remaining links). -/
theorem small_download_never_uploaded :
    (∀ (env : PEnv) (fid td pfx : String) (seen : List String)
       (items : List (Option String × String)) (nm p fo : String) (s : Nat),
      env.sizeOf p = some s → s < 1024 →
      Act.upload nm p fo ∉ processAll env fid td pfx seen items) ∧
    (∀ (env : PEnv) (fid td : String) (seen : List String)
       (items : List (Option String × String)) (nm p fo : String) (s : Nat),
      env.sizeOf p = some s → s < 1024 →
      Act.upload nm p fo ∉ processAllT env fid td seen items) ∧
    (∀ (env : PEnv) (fid td pfx : String) (seen : List String)
       (items : List (Option String × String)) (v p : String) (s : Nat),
      ((Act.downloadDrive v p ∈ processAll env fid td pfx seen items ∧ env.driveOk v = true) ∨
       (Act.downloadYt v p ∈ processAll env fid td pfx seen items ∧ env.ytOk v = true)) →
      env.sizeOf p = some s → s < 1024 →
      Act.removeLocal p ∈ processAll env fid td pfx seen items) ∧
    (∀ (env : PEnv) (fid td : String) (seen : List String)
       (items : List (Option String × String)) (v p : String) (s : Nat),
      ((Act.downloadDrive v p ∈ processAllT env fid td seen items ∧ env.driveOk v = true) ∨
       (Act.downloadYt v p ∈ processAllT env fid td seen items ∧ env.ytOk v = true)) →
      env.sizeOf p = some s → s < 1024 →
      Act.removeLocal p ∈ processAllT env fid td seen items) ∧
    (∀ (env : PEnv) (fid td pfx : String) (seen : List String)
       (item : Option String × String) (rest : List (Option String × String)),
      processAll env fid td pfx seen (item :: rest) =
        (if item.2 ∈ seen then [] else processItem env fid td pfx item) ++
        processAll env fid td pfx (if item.2 ∈ seen then seen else item.2 :: seen) rest) := by
  refine ⟨?_, ?_, ?_, ?_, ?_⟩
  · intro env fid td pfx seen items nm p fo s hs hlt hmem
    obtain ⟨s2, hs2, hlt2⟩ := upload_mem_processAll items seen hmem
    rw [hs] at hs2
    injection hs2 with hs2
    exact hlt2 (hs2 ▸ hlt)
  · intro env fid td seen items nm p fo s hs hlt hmem
    obtain ⟨s2, hs2, hlt2⟩ := upload_mem_processAllT items seen hmem
    rw [hs] at hs2
    injection hs2 with hs2
    exact hlt2 (hs2 ▸ hlt)
  · intro env fid td pfx seen items v p s hdl hs hlt
    exact remove_of_small_processAll items seen hdl hs hlt
  · intro env fid td seen items v p s hdl hs hlt
    exact remove_of_small_processAllT items seen hdl hs hlt
  · intro env fid td pfx seen item rest
    by_cases hseen : item.2 ∈ seen
    · simp [processAll, hseen]
    · simp [processAll, hseen]

/-- C6 witness: a successful YouTube download of 100 bytes: the small file
is removed and no upload of its path appears in the trace. -/
theorem small_download_witness :
    Act.upload "Store A.mp4" "tmp/Store A.mp4" "f" ∉
      processAll c6Env "f" "tmp" "" [] [(some "Store A", "https://youtu.be/ab12")] ∧
    Act.removeLocal "tmp/Store A.mp4" ∈
      processAll c6Env "f" "tmp" "" [] [(some "Store A", "https://youtu.be/ab12")] :=
  ⟨small_download_never_uploaded.1 c6Env "f" "tmp" "" []
      [(some "Store A", "https://youtu.be/ab12")] "Store A.mp4" "tmp/Store A.mp4" "f" 100
      rfl (by decide),
   small_download_never_uploaded.2.2.1 c6Env "f" "tmp" "" []
      [(some "Store A", "https://youtu.be/ab12")] "https://youtu.be/ab12" "tmp/Store A.mp4" 100
      (Or.inr ⟨by decide, rfl⟩) rfl (by decide)⟩

/-! ## C9: the dedup pre-check fails open -/

/-- C9: when the listing call inside `check_file_exists` raises an
`HttpError`, the function returns `False`; consequently in the per-link loop
an API failure during the pre-check is indistinguishable from "file not
present", and the pipeline proceeds to download — and, when the download
succeeds and survives the size guard, to upload — that link rather than
skipping it. -/
theorem check_file_exists_fails_open :
    (∀ (env : PEnv) (nm fo : String),
      env.listFiles nm fo = .error () → check_file_exists env nm fo = false) ∧
    (∀ (env : PEnv) (fid td pfx : String) (sugg : Option String) (link vid orig : String),
      driveMatch link = some vid → env.getMeta vid = .ok orig →
      env.listFiles (finalNameDrive pfx sugg orig) fid = .error () →
      Act.downloadDrive vid (joinPath td (sanitize_filename (finalNameDrive pfx sugg orig)))
        ∈ processItem env fid td pfx (sugg, link) ∧
      (∀ s : Nat, env.driveOk vid = true →
        env.sizeOf (joinPath td (sanitize_filename (finalNameDrive pfx sugg orig))) = some s →
        ¬ s < 1024 →
        Act.upload (finalNameDrive pfx sugg orig)
            (joinPath td (sanitize_filename (finalNameDrive pfx sugg orig))) fid
          ∈ processItem env fid td pfx (sugg, link))) := by
  have hbase : ∀ (env : PEnv) (nm fo : String),
      env.listFiles nm fo = .error () → check_file_exists env nm fo = false := by
    intro env nm fo h
    unfold check_file_exists
    rw [h]
  refine ⟨hbase, ?_⟩
  intro env fid td pfx sugg link vid orig hdm hmeta hlist
  have hchk : check_file_exists env (finalNameDrive pfx sugg orig) fid = false :=
    hbase env _ fid hlist
  unfold processItem driveBranch
  simp only [hdm, hmeta, hchk, Bool.false_eq_true, if_false]
  constructor
  · rw [List.mem_cons, List.mem_cons, List.mem_cons]
    right; right; left
    rfl
  · intro s hok hs hlt
    rw [List.mem_cons, List.mem_cons, List.mem_cons]
    right; right; right
    rw [hok]
    simp [afterDownload, hs, hlt]

/-- C9 witness: with every listing call failing, the pre-check reports
"not present" and the loop downloads and uploads the Drive-hosted link. -/
theorem check_file_exists_fails_open_witness :
    check_file_exists c9Env "n" "f" = false ∧
    Act.downloadDrive "XYZ" (joinPath "tmp" (sanitize_filename (finalNameDrive "" none "vid.mp4")))
      ∈ processItem c9Env "f" "tmp" "" (none, "https://drive.google.com/file/d/XYZ/view") ∧
    Act.upload (finalNameDrive "" none "vid.mp4")
        (joinPath "tmp" (sanitize_filename (finalNameDrive "" none "vid.mp4"))) "f"
      ∈ processItem c9Env "f" "tmp" "" (none, "https://drive.google.com/file/d/XYZ/view") :=
  ⟨check_file_exists_fails_open.1 c9Env "n" "f" rfl,
   (check_file_exists_fails_open.2 c9Env "f" "tmp" "" none
      "https://drive.google.com/file/d/XYZ/view" "XYZ" "vid.mp4" (by decide) rfl rfl).1,
   (check_file_exists_fails_open.2 c9Env "f" "tmp" "" none
      "https://drive.google.com/file/d/XYZ/view" "XYZ" "vid.mp4" (by decide) rfl rfl).2
     2048 rfl rfl (by decide)⟩

/-! ## C2: the §8 end-to-end scenario -/

/-- C2 (amended): on the §8 scenario document, the zone regex — with
`DOTALL` and no `STATE`/`CITY`/`PIN CODE` bound in the text — captures all
the way to the final newline, yielding the two-line string
`"North\nNorth 1_Delhi_Market"` rather than `"North"`; the market pattern
(the zone literal at a line start) therefore finds no match, so the
extracted market prefix is empty.  Link extraction yields exactly one link
`{name: "Store A", link: "https://youtu.be/abc123"}`, classified as
external, and when no same-named file exists the loop downloads it and
uploads it as `"Store A.mp4"` — the prefix being empty, not a market
fragment. -/
theorem scenario_pipeline_behavior :
    firstSlideText c2Slide1 = "ZONE : North\nNorth 1_Delhi_Market\n" ∧
    zoneValue (firstSlideText c2Slide1) = some "North\nNorth 1_Delhi_Market" ∧
    zoneNameOf (firstSlideText c2Slide1) = some "North\nNorth 1_Delhi_Market" ∧
    marketValue (firstSlideText c2Slide1) "North\nNorth 1_Delhi_Market" = none ∧
    marketNamePfx c2Doc = "" ∧
    extract_all_potential_links c2Doc = [("https://youtu.be/abc123", some "Store A")] ∧
    driveMatch "https://youtu.be/abc123" = none ∧
    ytMatch "https://youtu.be/abc123" = some "abc123" ∧
    processItem c2Env "folder" "tmp" (pfxForFilename (marketNamePfx c2Doc))
        (some "Store A", "https://youtu.be/abc123") =
      [Act.existsCheck "Store A.mp4",
       Act.downloadYt "https://youtu.be/abc123" "tmp/Store A.mp4",
       Act.upload "Store A.mp4" "tmp/Store A.mp4" "folder"] := by
  refine ⟨by decide, by decide, by decide, by decide, by decide, by decide, by decide,
    by decide, by decide⟩

/-- C2 counterexample: on the §8 first-slide text the zone stage does NOT
return `"North"` — it returns the two-line capture — and the market stage
finds nothing, so the claimed zone/market values are wrong. -/
theorem scenario_zone_not_north_cex :
    zoneNameOf "ZONE : North\nNorth 1_Delhi_Market\n" = some "North\nNorth 1_Delhi_Market" ∧
    ("North\nNorth 1_Delhi_Market" : String) ≠ "North" ∧
    marketValue "ZONE : North\nNorth 1_Delhi_Market\n" "North\nNorth 1_Delhi_Market" = none := by
  refine ⟨by decide, by decide, by decide⟩

/-! ## C5: the catchment field extractor -/

theorem keys_updKey (res : List (String × String)) (k v : String) :
    (updKey res k v).map Prod.fst = res.map Prod.fst := by
  unfold updKey
  rw [List.map_map]
  apply List.map_congr_left
  intro q _
  by_cases h : q.1 = k <;> simp [h]

theorem lookupRes_updKey_ne {res : List (String × String)} {k v kk : String}
    (h : (kk == k) = false) : lookupRes (updKey res k v) kk = lookupRes res kk := by
  unfold lookupRes updKey
  induction res with
  | nil => rfl
  | cons p res ih =>
    rw [List.map_cons, List.find?_cons, List.find?_cons]
    have hfst : ((if p.1 == k then (p.1, v) else p).1 == kk) = (p.1 == kk) := by
      by_cases hpk : p.1 == k <;> simp [hpk]
    rw [hfst]
    by_cases hpu : p.1 == kk
    · rw [hpu]
      simp only [cond_true, Option.map_some]
      have : (p.1 == k) = false := by
        rw [Bool.eq_false_iff] at h ⊢
        intro hc
        rw [beq_iff_eq] at hc hpu
        exact h (by rw [beq_iff_eq, ← hpu, hc])
      simp [this]
    · simp only [Bool.not_eq_true] at hpu
      rw [hpu]
      simp only [cond_false]
      exact ih

theorem keys_scanKeyStep (t : String) (r : List (String × String)) (k : String) :
    (scanKeyStep t r k).map Prod.fst = r.map Prod.fst := by
  unfold scanKeyStep
  split
  · cases extract_field_value t k with
    | none => rfl
    | some v => exact keys_updKey r k v
  · rfl

theorem lookup_scanKeyStep_none {t k : String} (hk : extract_field_value t k = none)
    (r : List (String × String)) (kk : String) :
    lookupRes (scanKeyStep t r kk) k = lookupRes r k := by
  unfold scanKeyStep
  by_cases hkk : kk == k
  · rw [beq_iff_eq] at hkk
    subst hkk
    split
    · rw [hk]
    · rfl
  · rw [Bool.not_eq_true] at hkk
    split
    · cases hv : extract_field_value t kk with
      | none => rfl
      | some v =>
        have : (k == kk) = false := by
          rw [Bool.eq_false_iff] at hkk ⊢
          intro hc
          rw [beq_iff_eq] at hc
          exact hkk (by rw [beq_iff_eq, hc])
        exact lookupRes_updKey_ne this
    · rfl

theorem keys_foldl_scanKeyStep (t : String) :
    ∀ (keys : List String) (r : List (String × String)),
      (keys.foldl (scanKeyStep t) r).map Prod.fst = r.map Prod.fst := by
  intro keys
  induction keys with
  | nil => intro r; rfl
  | cons k keys ih =>
    intro r
    rw [List.foldl_cons, ih, keys_scanKeyStep]

theorem lookup_foldl_scanKeyStep_none {t k : String} (hk : extract_field_value t k = none) :
    ∀ (keys : List String) (r : List (String × String)),
      lookupRes (keys.foldl (scanKeyStep t) r) k = lookupRes r k := by
  intro keys
  induction keys with
  | nil => intro r; rfl
  | cons kk keys ih =>
    intro r
    rw [List.foldl_cons, ih, lookup_scanKeyStep_none hk]

theorem keys_scanShape (sh : Shape) (r : List (String × String)) :
    (scanShape sh r).map Prod.fst = r.map Prod.fst := by
  unfold scanShape
  cases scannedText sh with
  | none => rfl
  | some t => exact keys_foldl_scanKeyStep t KEYS_TO_FIND r

theorem lookup_scanShape_none {sh : Shape} {k : String}
    (h : ∀ t, scannedText sh = some t → extract_field_value t k = none)
    (r : List (String × String)) :
    lookupRes (scanShape sh r) k = lookupRes r k := by
  unfold scanShape
  cases hst : scannedText sh with
  | none => rfl
  | some t => exact lookup_foldl_scanKeyStep_none (h t hst) KEYS_TO_FIND r

theorem keys_foldl_scanShape :
    ∀ (shapes : List Shape) (r : List (String × String)),
      ((shapes.foldl (fun r sh => scanShape sh r) r).map Prod.fst) = r.map Prod.fst := by
  intro shapes
  induction shapes with
  | nil => intro r; rfl
  | cons sh shapes ih =>
    intro r
    rw [List.foldl_cons, ih, keys_scanShape]

theorem lookup_foldl_scanShape_none {k : String} :
    ∀ (shapes : List Shape) (r : List (String × String)),
      (∀ sh ∈ shapes, ∀ t, scannedText sh = some t → extract_field_value t k = none) →
      lookupRes (shapes.foldl (fun r sh => scanShape sh r) r) k = lookupRes r k := by
  intro shapes
  induction shapes with
  | nil => intro r _; rfl
  | cons sh shapes ih =>
    intro r h
    rw [List.foldl_cons, ih _ (fun s hs => h s (List.mem_cons_of_mem _ hs)),
      lookup_scanShape_none (h sh (List.mem_cons_self _ _))]

theorem keys_fillNA (res : List (String × String)) :
    (fillNA res).map Prod.fst = res.map Prod.fst := by
  unfold fillNA
  rw [List.map_map]
  apply List.map_congr_left
  intro q _
  by_cases h : q.2 = "" <;> simp [h]

theorem mem_fillNA_ne_empty {res : List (String × String)} {k v : String}
    (h : (k, v) ∈ fillNA res) : v ≠ "" := by
  unfold fillNA at h
  rcases List.mem_map.mp h with ⟨p, _, hp⟩
  by_cases hp2 : p.2 == ""
  · rw [if_pos hp2] at hp
    injection hp with h1 h2
    rw [← h2]
    decide
  · rw [if_neg hp2] at hp
    rw [Bool.not_eq_true, beq_eq_false_iff_ne] at hp2
    rw [hp] at hp2
    exact hp2

theorem mem_NA_fillNA {res : List (String × String)} {k : String}
    (hin : k ∈ res.map Prod.fst) (hl : lookupRes res k = "") :
    (k, "N/A") ∈ fillNA res := by
  have hsome : (res.find? (fun p => p.1 == k)).isSome := by
    rw [List.find?_isSome]
    rcases List.mem_map.mp hin with ⟨p, hp, hpk⟩
    exact ⟨p, hp, by rw [beq_iff_eq]; exact hpk⟩
  rcases Option.isSome_iff_exists.mp hsome with ⟨p, hf⟩
  have hpk : p.1 = k := by
    have := List.find?_some hf
    rwa [beq_iff_eq] at this
  have hp2 : p.2 = "" := by
    unfold lookupRes at hl
    rw [hf] at hl
    exact hl
  unfold fillNA
  refine List.mem_map.mpr ⟨p, List.mem_of_find?_eq_some hf, ?_⟩
  rw [if_pos (by rw [hp2]; rfl)]
  rw [hpk]

theorem lookup_all_empty {res : List (String × String)} {k : String}
    (h : ∀ p ∈ res, p.2 = "") : lookupRes res k = "" := by
  unfold lookupRes
  cases hf : res.find? (fun p => p.1 == k) with
  | none => rfl
  | some p =>
    have := h p (List.mem_of_find?_eq_some hf)
    simp [this]

theorem keys_initRes : initRes.map Prod.fst = KEYS_TO_FIND := by decide

/-- C5 (amended): the result mapping always contains every declared key, in
declaration order.  When the target slide is found (no error entry), no key
is ever mapped to the empty string, and a key for which no scanned text
block matches (including empty-after-trim captures, which
`extract_field_value` already reports as "no match") is mapped to the
`"N/A"` sentinel.  When the document has no slide titled "Commercial Terms",
the function returns early: the keys are all present but mapped to `""`,
not to the sentinel (see the counterexample). -/
theorem extract_data_keys_invariant :
    (∀ p : Pptx, (extract_data_from_ppt p).fields.map Prod.fst = KEYS_TO_FIND) ∧
    (∀ (p : Pptx) (k v : String), (extract_data_from_ppt p).err = none →
      (k, v) ∈ (extract_data_from_ppt p).fields → v ≠ "") ∧
    (∀ (p : Pptx) (sl : Slide) (k : String), findTargetSlide p.slides = some sl →
      k ∈ KEYS_TO_FIND →
      (∀ sh ∈ sl.shapes, ∀ t, scannedText sh = some t → extract_field_value t k = none) →
      (k, "N/A") ∈ (extract_data_from_ppt p).fields) := by
  refine ⟨?_, ?_, ?_⟩
  · intro p
    unfold extract_data_from_ppt
    cases hcase : findTargetSlide p.slides with
    | none => exact keys_initRes
    | some sl =>
      show (fillNA _).map Prod.fst = _
      rw [keys_fillNA, keys_foldl_scanShape, keys_initRes]
  · intro p k v herr hmem
    unfold extract_data_from_ppt at herr hmem
    cases hcase : findTargetSlide p.slides with
    | none =>
      rw [hcase] at herr
      exact absurd herr (by decide)
    | some sl =>
      rw [hcase] at hmem
      exact mem_fillNA_ne_empty hmem
  · intro p sl k hsl hk hnone
    unfold extract_data_from_ppt
    rw [hsl]
    apply mem_NA_fillNA
    · rw [keys_foldl_scanShape, keys_initRes]
      exact hk
    · rw [lookup_foldl_scanShape_none sl.shapes initRes hnone]
      apply lookup_all_empty
      intro q hq
      rcases List.mem_map.mp hq with ⟨kk, _, hkk⟩
      rw [← hkk]

/-- C5 witness: a document whose "Commercial Terms" slide mentions only
`Store Size`: the key `Rent per Sq.ft` matches no scanned text and comes
back as the sentinel, never omitted and never empty. -/
theorem extract_data_keys_witness :
    ("Rent per Sq.ft", "N/A") ∈ (extract_data_from_ppt c5WitDoc).fields :=
  extract_data_keys_invariant.2.2 c5WitDoc c5WitSlide "Rent per Sq.ft"
    (by decide) (by decide)
    (by
      intro sh hsh t ht
      rw [show c5WitSlide.shapes = [c5Title, c5Body] from rfl] at hsh
      rcases List.mem_cons.mp hsh with h | h
      · subst h
        rw [show scannedText c5Title = some "Commercial Terms" from by decide] at ht
        injection ht with ht
        subst ht
        decide
      · rcases List.mem_cons.mp h with h | h
        · subst h
          rw [show scannedText c5Body = some "Store Size : 1200" from by decide] at ht
          injection ht with ht
          subst ht
          decide
        · simp at h)

/-- C5 counterexample: a document with no "Commercial Terms" slide: the
early error return leaves every key present but mapped to the empty string
— not to the `"N/A"` sentinel the claim requires. -/
theorem extract_data_error_path_cex :
    (extract_data_from_ppt (Pptx.mk [])).err = some ExtractErr.slideNotFound ∧
    ("Store Size", "") ∈ (extract_data_from_ppt (Pptx.mk [])).fields ∧
    lookupRes (extract_data_from_ppt (Pptx.mk [])).fields "Store Size" ≠ "N/A" := by
  refine ⟨by decide, by decide, by decide⟩

/-- C3 witness: the amended totality theorem applied at a concrete input
containing several replaced characters. -/
theorem sanitize_filename_total_witness :
    sanitize_filename "a\\b/c:d" ≠ "" ∧
    ∀ c ∈ (sanitize_filename "a\\b/c:d").data, illegalChar c = false :=
  sanitize_filename_total_amended "a\\b/c:d"
